import Mathlib

/-!
# Verification of the SVG_Generator_Modular cleanup / validation / optimization pipeline

This file gives a shallow embedding, in Lean 4, of the string- and tree-level
transformations of the repository `SVG_Generator_Modular`:

* `src/svg_generator/utils/sanitize.py`   (class `Sanitizer`)
* `src/svg_generator/utils/compliance.py` (class `ComplianceUtils`)
* `src/svg_generator/utils/optimizer.py`  (class `Optimizer`, fallback path)
* `src/svg_generator/config.py`           (policy constants)

Modelling conventions:

* Python strings are Lean `String`s; most transformations are written over
  `List Char` and lifted.
* Each `re.sub(pattern, repl, s)` call is modelled by the generic scanner
  `scanSub m`, where the matcher `m` implements, at one starting position,
  exactly the (leftmost, greedy-with-backtracking) semantics of the concrete
  regular expression used at that call site, returning the number of consumed
  characters together with the replacement.  `scanSub` advances one character
  when the matcher fails and resumes after the consumed segment when it
  succeeds, which is `re.sub`'s non-overlapping left-to-right behaviour
  (every pattern in this code base matches at least one character, so the
  empty-match corner of `re.sub` never arises).
* Python floats that pass through `float(...)` / `round(...)` / `str(...)` in
  the numeric rewriting helpers are modelled by exact scaled decimal integers
  with round-half-even.  This agrees with CPython on all inputs appearing in
  the theorems below (their values and rounding results are exactly
  representable decisions of the float rounding); genuine float/decimal tie
  divergences (such as `round(2.675, 2)`) are outside every statement made
  here.
* XML trees (ElementTree / lxml) are modelled by the inductive type `Node`
  with Clark-notation tags (`{namespace-uri}local`), attributes as an ordered
  association list and ordered children.  Text payloads are not modelled: no
  transformation verified here consults or alters them.  Parsing and
  serialization are external library calls; string-level functions that parse
  take the parser as an explicit oracle argument.
-/

/-! ## Basic character and string helpers -/

/-- Python's whitespace predicate: the characters for which `str.isspace()`
holds, which is both the class matched by `\s` in a `str` pattern and the
default strip set of `str.strip()`.  Besides the six ASCII whitespace
characters it contains the separator controls `\x1c`–`\x1f`, `\x85` (NEL),
`\xa0` (NBSP) and the Unicode space separators. -/
def isPyWS (c : Char) : Bool :=
  c = ' ' || c = '\t' || c = '\n' || c = '\r' || c = '\x0b' || c = '\x0c' ||
    (0x1c ≤ c.toNat && c.toNat ≤ 0x1f) || c.toNat = 0x85 || c.toNat = 0xa0 ||
    c.toNat = 0x1680 || (0x2000 ≤ c.toNat && c.toNat ≤ 0x200a) ||
    c.toNat = 0x2028 || c.toNat = 0x2029 || c.toNat = 0x202f ||
    c.toNat = 0x205f || c.toNat = 0x3000

/-- ASCII decimal digit test (`[0-9]`, `\d`). -/
def isDigit (c : Char) : Bool := '0' ≤ c && c ≤ '9'

/-- ASCII lower-case letter test. -/
def isLowerAlpha (c : Char) : Bool := 'a' ≤ c && c ≤ 'z'

/-- ASCII letter test (`[a-zA-Z]`). -/
def isAlpha (c : Char) : Bool := isLowerAlpha c || ('A' ≤ c && c ≤ 'Z')

/-- Character class `[a-zA-Z\-:]` of the attribute-name group in
`ComplianceUtils.limit_decimal_precision`. -/
def isAttrNameChar (c : Char) : Bool := isAlpha c || c = '-' || c = ':'

/-- ASCII lower-casing of one character, as `str.lower` acts on the ASCII
strings handled here. -/
def pyLowerChar (c : Char) : Char :=
  if 'A' ≤ c && c ≤ 'Z' then Char.ofNat (c.toNat + 32) else c

/-- `str.lower` on ASCII content. -/
def pyLower (s : String) : String := String.mk (s.data.map pyLowerChar)

/-- UTF-8 byte count of one character (what `len(s.encode('utf-8'))` counts
per character). -/
def utf8Bytes (c : Char) : Nat :=
  if c.toNat < 0x80 then 1
  else if c.toNat < 0x800 then 2
  else if c.toNat < 0x10000 then 3
  else 4

/-- UTF-8 byte length of a character list. -/
def utf8LenL (l : List Char) : Nat := (l.map utf8Bytes).sum

/-- UTF-8 byte length of a string: `len(s.encode('utf-8'))`. -/
def utf8Len (s : String) : Nat := utf8LenL s.data

/-- Substring containment, Python's `needle in haystack` on strings. -/
def containsSubL (pat : List Char) : List Char → Bool
  | [] => pat.isPrefixOf []
  | c :: cs => pat.isPrefixOf (c :: cs) || containsSubL pat cs

/-- Substring containment lifted to `String`. -/
def containsSub (hay pat : String) : Bool := containsSubL pat.data hay.data

/-- Python `str.strip()` on a character list. -/
def pyStripL (l : List Char) : List Char :=
  ((l.dropWhile isPyWS).reverse.dropWhile isPyWS).reverse

/-! ## A generic model of `re.sub`

`scanSub m l` scans `l` from the left.  At each position the matcher `m` is
offered the remaining suffix; on `some (k, rep)` the next `k` characters are
replaced by `rep` and scanning resumes after them, on `none` one character is
emitted unchanged.  All matchers below consume at least one character. -/

def scanSubF (m : List Char → Option (Nat × List Char)) :
    Nat → List Char → List Char
  | 0, l => l
  | _ + 1, [] => []
  | fuel + 1, c :: cs =>
    match m (c :: cs) with
    | some (k, rep) => rep ++ scanSubF m fuel (cs.drop (k - 1))
    | none => c :: scanSubF m fuel cs

/-- The scanner itself; the fuel `l.length` suffices because every step
consumes at least one character. -/
def scanSub (m : List Char → Option (Nat × List Char)) (l : List Char) :
    List Char :=
  scanSubF m l.length l

theorem scanSubF_eq_of_le (m : List Char → Option (Nat × List Char)) :
    ∀ (fuel fuel' : Nat) (l : List Char), l.length ≤ fuel →
      l.length ≤ fuel' → scanSubF m fuel l = scanSubF m fuel' l := by
  intro fuel
  induction fuel with
  | zero =>
    intro fuel' l h _
    have hl : l = [] := List.eq_nil_of_length_eq_zero (Nat.le_zero.mp h)
    subst hl
    cases fuel' <;> rfl
  | succ fuel ih =>
    intro fuel' l h h'
    cases l with
    | nil => cases fuel' <;> rfl
    | cons c cs =>
      cases fuel' with
      | zero => simp at h'
      | succ fuel2 =>
        simp only [List.length_cons, Nat.add_le_add_iff_right] at h h'
        simp only [scanSubF]
        cases hm : m (c :: cs) with
        | none =>
          rw [ih fuel2 cs h h']
        | some kr =>
          obtain ⟨k, rep⟩ := kr
          have hd : (cs.drop (k - 1)).length ≤ fuel := by
            have := List.length_drop (k - 1) cs
            omega
          have hd' : (cs.drop (k - 1)).length ≤ fuel2 := by
            have := List.length_drop (k - 1) cs
            omega
          simp only
          rw [ih fuel2 _ hd hd']

theorem scanSub_cons (m : List Char → Option (Nat × List Char))
    (c : Char) (cs : List Char) :
    scanSub m (c :: cs) =
      match m (c :: cs) with
      | some (k, rep) => rep ++ scanSub m (cs.drop (k - 1))
      | none => c :: scanSub m cs := by
  show scanSubF m (cs.length + 1) (c :: cs) = _
  simp only [scanSubF]
  cases hm : m (c :: cs) with
  | none => rfl
  | some kr =>
    obtain ⟨k, rep⟩ := kr
    have hd : (cs.drop (k - 1)).length ≤ cs.length := by
      have := List.length_drop (k - 1) cs
      omega
    simp only
    rw [scanSubF_eq_of_le m cs.length (cs.drop (k - 1)).length _ hd
      (Nat.le_refl _)]
    rfl

/-- Leftmost starting index (if any) at which `pat` occurs as a prefix of a
suffix of `l`; used to model non-greedy `.*?` up to a closing literal. -/
def firstIdxOf (pat : List Char) : List Char → Option Nat
  | [] => if pat.isPrefixOf ([] : List Char) then some 0 else none
  | c :: cs =>
    if pat.isPrefixOf (c :: cs) then some 0
    else match firstIdxOf pat cs with
      | some i => some (i + 1)
      | none => none

theorem firstIdxOf_le_length (pat l : List Char) (i : Nat)
    (h : firstIdxOf pat l = some i) : i ≤ l.length := by
  induction l generalizing i with
  | nil =>
    simp only [firstIdxOf] at h
    split at h
    · simp only [Option.some.injEq] at h
      omega
    · exact absurd h (by simp)
  | cons c cs ih =>
    simp only [firstIdxOf] at h
    split at h
    · simp only [Option.some.injEq] at h
      omega
    · cases hrec : firstIdxOf pat cs with
      | none => rw [hrec] at h; exact absurd h (by simp)
      | some j =>
        rw [hrec] at h
        simp only [Option.some.injEq] at h
        have := ih j hrec
        simp only [List.length_cons]
        omega

/-! ## Exact-decimal model of the numeric rewriting helpers

`ComplianceUtils.limit_decimal_precision` contains (twice) the idiom

```
num = float(num_str)
if num == int(num): return str(int(num))
else:               return str(round(num, precision))
```

testing integrality of the UNROUNDED value, whereas
`Sanitizer.simplify_paths` rounds first and tests the rounded value:

```
num = float(num_match.group(0))
rounded = round(num, precision)
if rounded == int(rounded): return str(int(rounded))
else:                       return str(rounded)
```

Both are modelled here on exact scaled decimal integers with round-half-even
(see the header comment for the scope of this float model): `pyRoundToken`
for the former, `replace_number` for the latter. -/

/-- Numeric value of a list of decimal digit characters (empty list is 0). -/
def natOfDigits (l : List Char) : Nat :=
  l.foldl (fun acc c => 10 * acc + (c.toNat - '0'.toNat)) 0

/-- Base-`b` digit values of `n`, least significant first, by fuel recursion
(so that it reduces in the kernel); `digitsBase b n n` agrees with
`Nat.digits b n` for `2 ≤ b`. -/
def digitsBase (b : Nat) : Nat → Nat → List Nat
  | 0, _ => []
  | fuel + 1, n => if n = 0 then [] else n % b :: digitsBase b fuel (n / b)

theorem digitsBase_eq_digits (b : Nat) (hb : 1 < b) :
    ∀ fuel n, n ≤ fuel → digitsBase b fuel n = Nat.digits b n := by
  intro fuel
  induction fuel with
  | zero =>
    intro n hn
    interval_cases n
    simp [digitsBase]
  | succ fuel ih =>
    intro n hn
    by_cases h0 : n = 0
    · simp [digitsBase, h0]
    · have hpos : 0 < n := Nat.pos_of_ne_zero h0
      have hdiv : n / b ≤ fuel := by
        have : n / b < n := Nat.div_lt_self hpos hb
        omega
      rw [digitsBase, if_neg h0, ih _ hdiv, Nat.digits_def' hb hpos]

/-- Decimal digit characters of `n`, most significant first; empty for 0. -/
def decDigitsRaw (n : Nat) : List Char :=
  ((digitsBase 10 n n).map Nat.digitChar).reverse

/-- Decimal representation of a natural number (`str` of a nonnegative int). -/
def decRepr (n : Nat) : List Char :=
  if n = 0 then ['0'] else decDigitsRaw n

/-- `str(int(num))` for a float of magnitude `i` and sign `neg`; the sign of a
negative zero is dropped by `int`. -/
def intRepr (neg : Bool) (i : Nat) : List Char :=
  (if neg && i ≠ 0 then ['-'] else []) ++ decRepr i

/-- Fractional digit block of value `m` padded to exactly `q` digits. -/
def fracRepr (m q : Nat) : List Char :=
  List.replicate (q - (decDigitsRaw m).length) '0' ++ decDigitsRaw m

/-- Strip trailing decimal zeros from the scaled value `n` at scale `q`
(fuel is `q` itself). -/
def stripZeros : Nat → Nat → Nat × Nat
  | n, 0 => (n, 0)
  | n, q + 1 => if n % 10 = 0 then stripZeros (n / 10) q else (n, q + 1)

/-- `str` of the float `(-1)^neg * n / 10^q`: trailing fractional zeros are
dropped but at least one fractional digit (possibly `0`) is always printed,
and the sign of the float (including a negative zero) is kept. -/
def floatRepr (neg : Bool) (n q : Nat) : List Char :=
  let (n2, q2) := stripZeros n q
  (if neg then ['-'] else []) ++
    (if q2 = 0 then decRepr n2 ++ ['.', '0']
     else decRepr (n2 / 10 ^ q2) ++ '.' :: fracRepr (n2 % 10 ^ q2) q2)

/-- Split a matched numeric token into sign, integer digits and fractional
digits.  Tokens are produced by the number matchers below, so they have the
shape `[-+]? digits* ('.' digits+)?` with at least one digit overall. -/
def parseTok (tok : List Char) : Bool × List Char × List Char :=
  let sr : Bool × List Char :=
    match tok with
    | '-' :: r => (true, r)
    | '+' :: r => (false, r)
    | r => (false, r)
  let i := sr.2.takeWhile isDigit
  match sr.2.drop i.length with
  | '.' :: r2 => (sr.1, i, r2.takeWhile isDigit)
  | _ => (sr.1, i, [])

/-- Round-half-even of `n / d` for `d > 0`. -/
def roundHalfEven (n d : Nat) : Nat :=
  let q := n / d
  let r := n % d
  if 2 * r < d then q
  else if d < 2 * r then q + 1
  else if q % 2 = 0 then q else q + 1

/-- The numeric rewriting of one matched token in BOTH helpers of
`ComplianceUtils.limit_decimal_precision` (`round_number` of the attribute
pass and of the path pass): `float` the token, and test `num == int(num)` on
the UNROUNDED value — emit `str(int(num))` when it is integral, otherwise
`str(round(num, p))`.  The helper of `Sanitizer.simplify_paths` uses a
different idiom (it tests the rounded value); see `replace_number` below. -/
def pyRoundToken (p : Nat) (tok : List Char) : List Char :=
  let (neg, i, f) := parseTok tok
  if natOfDigits f = 0 then intRepr neg (natOfDigits i)
  else
    let fl := f.length
    let n := natOfDigits i * 10 ^ fl + natOfDigits f
    if fl ≤ p then floatRepr neg n fl
    else floatRepr neg (roundHalfEven n (10 ^ (fl - p))) p

example : pyRoundToken 1 "12.0".data = "12".data := by decide
example : pyRoundToken 1 "12.34".data = "12.3".data := by decide
example : pyRoundToken 0 "12.0".data = "12".data := by decide
example : pyRoundToken 1 "12.04".data = "12.0".data := by decide
example : pyRoundToken 1 ".5".data = "0.5".data := by decide
example : pyRoundToken 0 "0.7".data = "1.0".data := by decide
example : pyRoundToken 1 "-0.04".data = "-0.0".data := by decide
example : pyRoundToken 2 "007".data = "7".data := by decide

/-- `round(float(tok), p)` as performed by `replace_number` inside
`Sanitizer.simplify_paths.round_numbers`, as an exact scaled decimal: the
rounded value is `(plus-or-minus) m / 10 ^ q` for result `(m, q)`.  A value
with at most `p` fractional digits is returned unchanged; otherwise the scaled
value is rounded half-to-even to `p` fractional digits. -/
def simplifyRounded (p : Nat) (tok : List Char) : Nat × Nat :=
  if (parseTok tok).2.2.length ≤ p then
    (natOfDigits (parseTok tok).2.1 * 10 ^ (parseTok tok).2.2.length +
        natOfDigits (parseTok tok).2.2,
      (parseTok tok).2.2.length)
  else
    (roundHalfEven
        (natOfDigits (parseTok tok).2.1 * 10 ^ (parseTok tok).2.2.length +
          natOfDigits (parseTok tok).2.2)
        (10 ^ ((parseTok tok).2.2.length - p)),
      p)

/-- The number rewriter `replace_number` of `Sanitizer.simplify_paths`:
`rounded = round(num, precision)` FIRST, then emit `str(int(rounded))` when
`rounded == int(rounded)` (the ROUNDED value is integral — its scaled value
has residue `0`), otherwise `str(rounded)`.  Note the difference from
`pyRoundToken` (`ComplianceUtils.limit_decimal_precision`), which applies the
integrality test to the unrounded value. -/
def replace_number (p : Nat) (tok : List Char) : List Char :=
  if (simplifyRounded p tok).1 % 10 ^ (simplifyRounded p tok).2 = 0 then
    intRepr (parseTok tok).1
      ((simplifyRounded p tok).1 / 10 ^ (simplifyRounded p tok).2)
  else
    floatRepr (parseTok tok).1 (simplifyRounded p tok).1
      (simplifyRounded p tok).2

example : replace_number 1 "12.0".data = "12".data := by decide
example : replace_number 1 "12.34".data = "12.3".data := by decide
example : replace_number 0 "12.0".data = "12".data := by decide
example : replace_number 1 "12.04".data = "12".data := by decide
example : replace_number 1 "-0.04".data = "0".data := by decide
example : replace_number 0 "0.7".data = "1".data := by decide
example : replace_number 1 ".5".data = "0.5".data := by decide
example : replace_number 0 ".5".data = "0".data := by decide
example : replace_number 2 "007".data = "7".data := by decide
example : replace_number 1 "12.36".data = "12.4".data := by decide

/-! ## Matchers for the concrete regular expressions

Each `m...` definition is the one-position matcher of a single `re.sub` call
site (the regex is quoted in its doc comment); `countWhile` is the length of
the maximal run of a character class, which is how the greedy `+`/`*`
quantifiers behave here (no pattern below needs to backtrack out of a maximal
run, because the character that must follow the run is never a member of the
run's class). -/

/-- Length of the maximal prefix run satisfying `p`. -/
def countWhile (p : Char → Bool) (l : List Char) : Nat := (l.takeWhile p).length

/-- `<metadata>.*?</metadata>` (DOTALL), replaced by the empty string
(`Sanitizer.remove_metadata`). -/
def mMetadata (l : List Char) : Option (Nat × List Char) :=
  if "<metadata>".data.isPrefixOf l then
    match firstIdxOf "</metadata>".data (l.drop 10) with
    | some i => some (10 + i + 11, [])
    | none => none
  else none

/-- `<!--.*?-->` (DOTALL), replaced by the empty string
(`Sanitizer.remove_metadata`). -/
def mComment (l : List Char) : Option (Nat × List Char) :=
  if "<!--".data.isPrefixOf l then
    match firstIdxOf "-->".data (l.drop 4) with
    | some i => some (4 + i + 3, [])
    | none => none
  else none

/-- The editor-namespace alternation `(inkscape|sodipodi|dc|cc|rdf)`; the five
alternatives have pairwise distinct first characters, so first-match-wins
order is immaterial. -/
def editorAlt (l : List Char) : Option Nat :=
  if "inkscape".data.isPrefixOf l then some 8
  else if "sodipodi".data.isPrefixOf l then some 8
  else if "dc".data.isPrefixOf l then some 2
  else if "cc".data.isPrefixOf l then some 2
  else if "rdf".data.isPrefixOf l then some 3
  else none

/-- `\s+xmlns:(inkscape|sodipodi|dc|cc|rdf)="[^"]+"`, replaced by the empty
string (`Sanitizer.remove_metadata`). -/
def mXmlnsEditor (l : List Char) : Option (Nat × List Char) :=
  let w := countWhile isPyWS l
  if w = 0 then none
  else
    let r1 := l.drop w
    if "xmlns:".data.isPrefixOf r1 then
      match editorAlt (r1.drop 6) with
      | some a =>
        let r2 := r1.drop (6 + a)
        if "=\"".data.isPrefixOf r2 then
          let v := countWhile (fun c => c ≠ '"') (r2.drop 2)
          if v ≥ 1 && decide (2 + v < r2.length) then
            some (w + 6 + a + 2 + v + 1, [])
          else none
        else none
      | none => none
    else none

/-- `\s+(inkscape|sodipodi|dc|cc|rdf):[a-z\-]+="[^"]+"`, replaced by the
empty string (`Sanitizer.remove_metadata`). -/
def mEditorAttr (l : List Char) : Option (Nat × List Char) :=
  let w := countWhile isPyWS l
  if w = 0 then none
  else
    let r1 := l.drop w
    match editorAlt r1 with
    | some a =>
      if (r1.drop a).head? = some ':' then
        let r2 := r1.drop (a + 1)
        let nm := countWhile (fun c => isLowerAlpha c || c = '-') r2
        if nm = 0 then none
        else
          let r3 := r2.drop nm
          if "=\"".data.isPrefixOf r3 then
            let v := countWhile (fun c => c ≠ '"') (r3.drop 2)
            if v ≥ 1 && decide (2 + v < r3.length) then
              some (w + a + 1 + nm + 2 + v + 1, [])
            else none
          else none
      else none
    | none => none

/-- `\s+` replaced by a single space (`Sanitizer.minify_svg`, also reused by
`Optimizer._apply_aggressive_optimization`). -/
def mWsCollapse (l : List Char) : Option (Nat × List Char) :=
  let w := countWhile isPyWS l
  if w = 0 then none else some (w, [' '])

/-- `>\s+<` replaced by `><` (`Sanitizer.minify_svg`, also reused by
`Optimizer._apply_aggressive_optimization`). -/
def mGtWsLt (l : List Char) : Option (Nat × List Char) :=
  match l with
  | '>' :: rest =>
    let w := countWhile isPyWS rest
    if w = 0 then none
    else if (rest.drop w).head? = some '<' then some (1 + w + 1, ['>', '<'])
    else none
  | _ => none

/-- `"\s+` replaced by `"` (`Sanitizer.minify_svg`). -/
def mQuoteWs (l : List Char) : Option (Nat × List Char) :=
  match l with
  | '"' :: rest =>
    let w := countWhile isPyWS rest
    if w = 0 then none else some (1 + w, ['"'])
  | _ => none

/-- `\s+="` replaced by `="` (`Sanitizer.minify_svg`). -/
def mWsEq (l : List Char) : Option (Nat × List Char) :=
  let w := countWhile isPyWS l
  if w = 0 then none
  else if "=\"".data.isPrefixOf (l.drop w) then some (w + 2, ['=', '"'])
  else none

/-- `\s+version="[^"]+"` replaced by the empty string
(`Sanitizer.minify_svg`). -/
def mVersion (l : List Char) : Option (Nat × List Char) :=
  let w := countWhile isPyWS l
  if w = 0 then none
  else
    let r1 := l.drop w
    if "version=\"".data.isPrefixOf r1 then
      let v := countWhile (fun c => c ≠ '"') (r1.drop 9)
      if v ≥ 1 && decide (9 + v < r1.length) then some (w + 9 + v + 1, [])
      else none
    else none

/-- `stroke-width="1"` replaced by itself (the deliberate no-op substitution
in `Sanitizer.minify_svg`). -/
def mStrokeWidth (l : List Char) : Option (Nat × List Char) :=
  if "stroke-width=\"1\"".data.isPrefixOf l then
    some (16, "stroke-width=\"1\"".data)
  else none

/-- `\s+` followed by the literal `lit`, replaced by the empty string: the
shape of the five default-attribute removals in
`Optimizer._apply_fallback_optimization`. -/
def mWsLit (lit : List Char) (l : List Char) : Option (Nat × List Char) :=
  let w := countWhile isPyWS l
  if w = 0 then none
  else if lit.isPrefixOf (l.drop w) then some (w + lit.length, [])
  else none

/-- `<\?xml[^>]+\?>` replaced by the empty string
(`Optimizer._apply_aggressive_optimization`).  After backtracking of the
greedy `[^>]+` against the trailing `\?>`, the regex matches exactly when the
first `>` after `<?xml` is preceded by `?` with at least one character in
between. -/
def mProlog (l : List Char) : Option (Nat × List Char) :=
  if "<?xml".data.isPrefixOf l then
    let rest := l.drop 5
    let j := countWhile (fun c => c ≠ '>') rest
    if decide (j < rest.length) && decide (2 ≤ j) &&
        ((rest.take j).getLast? = some '?') then
      some (5 + j + 1, [])
    else none
  else none

/-- `[-+]?[0-9]*\.?[0-9]+` with the rounding replacer of
`Sanitizer.simplify_paths`.  After backtracking, a successful match is
`sign? digits ('.' digits+)?` where the whole token carries at least one
digit; a trailing bare `.` is left out of the match. -/
def mSimplifyNum (p : Nat) (l : List Char) : Option (Nat × List Char) :=
  let sg : Nat := if l.head? = some '-' || l.head? = some '+' then 1 else 0
  let r1 := l.drop sg
  let a := countWhile isDigit r1
  let r2 := r1.drop a
  if r2.head? = some '.' && decide (0 < countWhile isDigit (r2.drop 1)) then
    let b := countWhile isDigit (r2.drop 1)
    let tok := l.take (sg + a + 1 + b)
    some (sg + a + 1 + b, replace_number p tok)
  else if a ≠ 0 then
    let tok := l.take (sg + a)
    some (sg + a, replace_number p tok)
  else none

/-- `-?\d+\.\d+` with the rounding replacer, as used both inside the
attribute pass and inside the path pass of
`ComplianceUtils.limit_decimal_precision`. -/
def mLimitNum (p : Nat) (l : List Char) : Option (Nat × List Char) :=
  let sg : Nat := if l.head? = some '-' then 1 else 0
  let r1 := l.drop sg
  let a := countWhile isDigit r1
  if a = 0 then none
  else
    let r2 := r1.drop a
    if r2.head? = some '.' && decide (0 < countWhile isDigit (r2.drop 1)) then
      let b := countWhile isDigit (r2.drop 1)
      let tok := l.take (sg + a + 1 + b)
      some (sg + a + 1 + b, pyRoundToken p tok)
    else none

/-- `d="([^"]+)"`, the captured group rewritten by an inner number
substitution `inner` (`Sanitizer.simplify_paths` uses
`mSimplifyNum p`; the path pass of `ComplianceUtils.limit_decimal_precision`
uses `mLimitNum p`). -/
def mDAttr (inner : List Char → Option (Nat × List Char))
    (l : List Char) : Option (Nat × List Char) :=
  if "d=\"".data.isPrefixOf l then
    let rest := l.drop 3
    let g := countWhile (fun c => c ≠ '"') rest
    if g ≥ 1 && decide (g < rest.length) then
      some (3 + g + 1, "d=\"".data ++ scanSub inner (rest.take g) ++ ['"'])
    else none
  else none

/-- Hexadecimal digit characters of `n` padded to width 2: Python's
`'{:02x}'.format(n)`. -/
def hexPad2 (n : Nat) : List Char :=
  let ds := ((digitsBase 16 n n).map Nat.digitChar).reverse
  List.replicate (2 - ds.length) '0' ++ ds

/-- `rgb\((\d+),\s*(\d+),\s*(\d+)\)` rewritten to `#rrggbb`
(`Optimizer._apply_aggressive_optimization`). -/
def mRgb (l : List Char) : Option (Nat × List Char) :=
  if "rgb(".data.isPrefixOf l then
    let r1 := l.drop 4
    let a := countWhile isDigit r1
    if a = 0 then none
    else if (r1.drop a).head? = some ',' then
      let r2 := r1.drop (a + 1)
      let w1 := countWhile isPyWS r2
      let b := countWhile isDigit (r2.drop w1)
      if b = 0 then none
      else if (r2.drop (w1 + b)).head? = some ',' then
        let r3 := r2.drop (w1 + b + 1)
        let w2 := countWhile isPyWS r3
        let c := countWhile isDigit (r3.drop w2)
        if c = 0 then none
        else if (r3.drop (w2 + c)).head? = some ')' then
          some (4 + a + 1 + w1 + b + 1 + w2 + c + 1,
            '#' :: (hexPad2 (natOfDigits (r1.take a)) ++
              hexPad2 (natOfDigits ((r2.drop w1).take b)) ++
              hexPad2 (natOfDigits ((r3.drop w2).take c))))
        else none
      else none
    else none
  else none

/-! ## The string transformations of `Sanitizer` (static methods) and the
fallback path of `Optimizer` -/

/-- `Sanitizer.remove_metadata`: strip `<metadata>` blocks, comments, editor
namespace declarations and editor-namespaced attributes, in that order. -/
def remove_metadata (s : String) : String :=
  String.mk (scanSub mEditorAttr (scanSub mXmlnsEditor
    (scanSub mComment (scanSub mMetadata s.data))))

/-- `Sanitizer.minify_svg`: collapse whitespace, tighten `>` `<` seams and
quotes, drop the `version` attribute, the deliberate no-op `stroke-width`
substitution, then `str.strip()`. -/
def minify_svg (s : String) : String :=
  String.mk (pyStripL (scanSub mStrokeWidth (scanSub mVersion
    (scanSub mWsEq (scanSub mQuoteWs
      (scanSub mGtWsLt (scanSub mWsCollapse s.data)))))))

/-- `Sanitizer.simplify_paths`: rewrite every number inside every
`d="..."` span with `precision` decimal places. -/
def simplify_paths (precision : Nat) (s : String) : String :=
  String.mk (scanSub (mDAttr (mSimplifyNum precision)) s.data)

/-- `MAX_SVG_SIZE_BYTES` from `config.py`. -/
def MAX_SVG_SIZE_BYTES : Nat := 10 * 1024

/-- `Optimizer._apply_fallback_optimization` (the path taken when the Scour
collaborator is absent): `remove_metadata`, `minify_svg`,
`simplify_paths(precision=1)`, then removal of the five default-valued
presentation attributes. -/
def applyFallbackOptimization (s : String) : String :=
  let r0 := simplify_paths 1 (minify_svg (remove_metadata s))
  String.mk
    (scanSub (mWsLit "stroke-linejoin=\"miter\"".data)
      (scanSub (mWsLit "stroke-linecap=\"butt\"".data)
        (scanSub (mWsLit "stroke-opacity=\"1\"".data)
          (scanSub (mWsLit "fill-opacity=\"1\"".data)
            (scanSub (mWsLit "opacity=\"1\"".data) r0.data)))))

/-- `Optimizer._apply_aggressive_optimization` on the Scour-less branch:
`remove_metadata`, `minify_svg`, `simplify_paths(precision=0)`, whitespace
collapse, `>` `<` tightening, XML-prolog removal, `rgb(...)`-to-hex. -/
def applyAggressiveOptimization (s : String) : String :=
  let r0 := simplify_paths 0 (minify_svg (remove_metadata s))
  String.mk (scanSub mRgb (scanSub mProlog
    (scanSub mGtWsLt (scanSub mWsCollapse r0.data))))

/-- The observable diagnostics of `Optimizer.optimize_svg_string`, one
constructor per `logger` call that reports pipeline state (the two
size-escalation messages; debug/info chatter is not modelled):
`aggressiveAttempt n` is the `logger.warning` that the size `n` after initial
optimization exceeds the maximum and aggressive optimization is attempted;
`budgetNotMet n` is the `logger.error` `CRITICAL: SVG size (n bytes) still
exceeds max allowed size` after all attempts. -/
inductive OptLog where
  | aggressiveAttempt (sizeBytes : Nat)
  | budgetNotMet (sizeBytes : Nat)
deriving DecidableEq

/-- `Optimizer.optimize_svg_string` on the Scour-less (fallback) branch,
returning the optimized string together with the emitted size diagnostics.
Budget overrun never raises: the aggressively optimized artifact is returned
with the `budgetNotMet` diagnostic. -/
def optimize_svg_string (s : String) : String × List OptLog :=
  if s = "" then ("", [])
  else
    let current := applyFallbackOptimization s
    let size1 := utf8Len current
    if size1 > MAX_SVG_SIZE_BYTES then
      let current2 := applyAggressiveOptimization current
      let size2 := utf8Len current2
      if size2 > MAX_SVG_SIZE_BYTES then
        (current2, [OptLog.aggressiveAttempt size1, OptLog.budgetNotMet size2])
      else
        (current2, [OptLog.aggressiveAttempt size1])
    else (current, [])

example : simplify_paths 1 "<p d=\".5\"/>" = "<p d=\"0.5\"/>" := by decide
example : applyFallbackOptimization "<p d=\".5\"/>" = "<p d=\"0.5\"/>" := by
  decide
example : minify_svg "<svg  version=\"1.1\">  <g> </g></svg>" =
    "<svg><g></g></svg>" := by decide
example : applyAggressiveOptimization
    "<?xml version=\"1.0\"?><g fill=\"rgb(255, 0, 10)\"/>" =
    "<?xml?><g fill=\"#ff000a\"/>" := by decide
example : applyAggressiveOptimization
    "<?xml x?><g fill=\"rgb(255, 0, 10)\"/>" =
    "<g fill=\"#ff000a\"/>" := by decide

/-! ## `ComplianceUtils.limit_decimal_precision` -/

/-- Whether a quote-free attribute value contains `\d+\.\d+` (equivalently,
an adjacent digit–dot–digit triple), the guard of the attribute-value group
`([^"]*\d+\.\d+[^"]*)` in `ComplianceUtils.limit_decimal_precision`. -/
def hasDecNum : List Char → Bool
  | a :: b :: c :: rest =>
    (isDigit a && b = '.' && isDigit c) || hasDecNum (b :: c :: rest)
  | _ => false

/-- The attributes whose values `replace_numbers` leaves untouched. -/
def skipAttrs : List (List Char) :=
  ["opacity".data, "fill-opacity".data, "stroke-opacity".data]

/-- `([a-zA-Z\-:]+)="([^"]*\d+\.\d+[^"]*)"` with the `replace_numbers`
replacer of `ComplianceUtils.limit_decimal_precision`: a matched attribute
whose lower-cased name is `opacity`/`fill-opacity`/`stroke-opacity` is
re-emitted unchanged, any other matched attribute has every `-?\d+\.\d+`
token of its value rounded.  (`=` and `"` are not in the name class, so the
greedy name run never backtracks, and the value group is forced to extend to
the next `"`.) -/
def mAttrNum (p : Nat) (l : List Char) : Option (Nat × List Char) :=
  let nm := countWhile isAttrNameChar l
  if nm = 0 then none
  else
    let r1 := l.drop nm
    if "=\"".data.isPrefixOf r1 then
      let v := countWhile (fun c => c ≠ '"') (r1.drop 2)
      if decide (2 + v < r1.length) && hasDecNum ((r1.drop 2).take v) then
        let k := nm + 2 + v + 1
        if skipAttrs.contains ((l.take nm).map pyLowerChar) then
          some (k, l.take k)
        else
          some (k, l.take nm ++ '=' :: '"' ::
            (scanSub (mLimitNum p) ((r1.drop 2).take v) ++ ['"']))
      else none
    else none

/-- `ComplianceUtils.limit_decimal_precision`: the attribute pass followed by
the `d="..."` path-data pass (whose inner number regex is `-?\d+\.\d+`). -/
def limit_decimal_precision (precision : Nat) (svg_str : String) : String :=
  String.mk (scanSub (mDAttr (mLimitNum precision))
    (scanSub (mAttrNum precision) svg_str.data))

example : limit_decimal_precision 1 "<line x1=\"1.56\" opacity=\"2.56\"/>" =
    "<line x1=\"1.56\" opacity=\"2.56\"/>" := by decide
example : limit_decimal_precision 1
    "<circle cx=\"1.56\" opacity=\"2.56\" x1=\"3.56\"/>" =
    "<circle cx=\"1.6\" opacity=\"2.56\" x1=\"3.56\"/>" := by decide
example : limit_decimal_precision 1 "<path d=\"M 1.56 2\" OPACITY=\"9.94\"/>" =
    "<path d=\"M 1.6 2\" OPACITY=\"9.94\"/>" := by decide
example : limit_decimal_precision 1 "<p stroke-opacity=\"0.15\"/>" =
    "<p stroke-opacity=\"0.15\"/>" := by decide

/-! ## `ComplianceUtils.check_competition_compliance` -/

/-- The validation report: `results = {"is_valid": ..., "issues": [...]}`. -/
structure ComplianceReport where
  is_valid : Bool
  issues : List String
deriving DecidableEq

/-- One `results["is_valid"] = False; results["issues"].append(msg)` step,
guarded by its condition. -/
def addIssue (r : ComplianceReport) (b : Bool) (msg : String) :
    ComplianceReport :=
  if b then ⟨false, r.issues ++ [msg]⟩ else r

/-- The probed animation tag fragments, in source order. -/
def animationTags : List String :=
  ["<animate", "<animatetransform", "<animatemotion", "<set"]

/-- `ComplianceUtils.check_competition_compliance`: size check, `<script`
check, external-reference check (which requires the literal substring
`xlink:href` *and* one of the resource markers), then the animation-tag
checks. -/
def check_competition_compliance (svg_str : String) (max_size_bytes : Nat) :
    ComplianceReport :=
  let r0 : ComplianceReport := ⟨true, []⟩
  let size_bytes := utf8Len svg_str
  let r1 := addIssue r0 (decide (size_bytes > max_size_bytes))
    ("SVG size (" ++ String.mk (decRepr size_bytes) ++
      " bytes) exceeds maximum allowed size (" ++
      String.mk (decRepr max_size_bytes) ++ " bytes)")
  let r2 := addIssue r1 (containsSub (pyLower svg_str) "<script")
    "SVG contains prohibited <script> elements"
  let r3 := addIssue r2
    (containsSub svg_str "xlink:href" &&
      (containsSub svg_str "data:" || containsSub svg_str "http:" ||
        containsSub svg_str "https:" ||
        containsSub (pyLower svg_str) ".jpg" ||
        containsSub (pyLower svg_str) ".png" ||
        containsSub (pyLower svg_str) ".jpeg"))
    "SVG contains external image references (data:, http:, or image files)"
  animationTags.foldl
    (fun r tag => addIssue r (containsSub (pyLower svg_str) tag)
      ("SVG contains animation elements (" ++ tag ++ ")")) r3

example :
    (check_competition_compliance "<svg><image href=\"http://a.png\"/></svg>"
      10240).is_valid = true := by decide
example :
    (check_competition_compliance "<svg xlink:href=\"a.png\"/>" 10240) =
      ⟨false,
        ["SVG contains external image references (data:, http:, or image files)"]⟩ := by
  decide

/-! ## The XML tree model

`Node` models an ElementTree / lxml element: Clark-notation tag
(`\x7bnamespace-uri\x7dlocal` once a namespace applies), attributes in
document order, children in document order.  Namespace *declarations* are
absorbed by the parsers and do not appear as attributes; text payloads are
not consulted by any modelled transformation and are omitted. -/

inductive Node where
  | mk (tag : String) (attrs : List (String × String)) (children : List Node)

def Node.tag : Node → String
  | .mk t _ _ => t

def Node.attrs : Node → List (String × String)
  | .mk _ a _ => a

def Node.children : Node → List Node
  | .mk _ _ c => c

/-- Mutual induction for `Node` and `List Node`, wrapping the generated
recursor. -/
theorem node_mutual_ind (P : Node → Prop) (Q : List Node → Prop)
    (hmk : ∀ t a c, Q c → P (Node.mk t a c))
    (hnil : Q [])
    (hcons : ∀ x xs, P x → Q xs → Q (x :: xs)) :
    (∀ n, P n) ∧ (∀ l, Q l) :=
  ⟨fun n => Node.rec hmk hnil hcons n,
   fun l => List.rec hnil (fun x xs hxs =>
     hcons x xs (Node.rec hmk hnil hcons x) hxs) l⟩

/-- Everything before the first occurrence of `c0` (`split(c0, 1)[0]`). -/
def beforeFirst (c0 : Char) : List Char → List Char
  | [] => []
  | c :: cs => if c = c0 then [] else c :: beforeFirst c0 cs

/-- Everything after the first occurrence of `c0` (`split(c0, 1)[1]`). -/
def afterFirst (c0 : Char) : List Char → List Char
  | [] => []
  | c :: cs => if c = c0 then cs else afterFirst c0 cs

/-- `Sanitizer._strip_namespace_from_tag`: drop a leading Clark-notation
namespace, i.e. everything up to and including the first closing brace. -/
def stripNS (s : String) : String :=
  if containsSubL ['\x7d'] s.data then String.mk (afterFirst '\x7d' s.data)
  else s

/-- Clark notation `\x7bns\x7dloc`. -/
def clark (ns loc : String) : String :=
  String.mk ('\x7b' :: (ns.data ++ '\x7d' :: loc.data))

def svgNS : String := "http://www.w3.org/2000/svg"

def xlinkNS : String := "http://www.w3.org/1999/xlink"

/-- Ordered attribute lookup, `element.get(k)` (parser output has unique
attribute keys). -/
def getAttr (a : List (String × String)) (k : String) : Option String :=
  (a.find? (fun p => p.1 = k)).map (fun p => p.2)

/-! ## `config.py` policy constants and `Sanitizer._sanitize_element` -/

/-- `ALLOWED_SVG_TAGS` from `config.py`. -/
def ALLOWED_SVG_TAGS : List String :=
  ["svg", "path", "circle", "rect", "polygon", "g", "defs",
   "linearGradient", "radialGradient", "stop", "pattern"]

/-- `PROHIBITED_SVG_ATTRIBUTES` from `config.py`. -/
def PROHIBITED_SVG_ATTRIBUTES : List String :=
  ["style", "filter", "href", "class", "id"]

/-- The tags treated as definition children by the `is_def_child` test in
`Sanitizer._sanitize_element`. -/
def defChildTags : List String :=
  ["linearGradient", "radialGradient", "pattern", "stop"]

/-- The attribute-retention test of the deletion loop in
`Sanitizer._sanitize_element`, for an attribute with raw name `raw` on a tag
whose namespace-stripped name is `tagName`: prohibited local names are
dropped unless the `id`-on-definition exemption applies, and otherwise a
namespaced `xlink...href` name is dropped unconditionally. -/
def keepAttr (tagName : String) (raw : String) : Bool :=
  if PROHIBITED_SVG_ATTRIBUTES.contains (stripNS raw) &&
      !(decide (stripNS raw = "id") && defChildTags.contains tagName) then
    false
  else if containsSubL [':'] raw.data then
    !(decide (String.mk (beforeFirst ':' raw.data) = "xlink") &&
      containsSub raw "href")
  else true

mutual

/-- `Sanitizer._sanitize_element`: `none` when the (namespace-stripped) tag
is disallowed, otherwise the element with its attributes filtered and its
children recursively sanitized (children sanitized to `None` are removed). -/
def sanitizeElement : Node → Option Node
  | .mk t a c =>
    if ALLOWED_SVG_TAGS.contains (stripNS t) then
      some (.mk t (a.filter (fun p => keepAttr (stripNS t) p.1))
        (sanitizeChildren c))
    else none

def sanitizeChildren : List Node → List Node
  | [] => []
  | x :: xs =>
    match sanitizeElement x with
    | some y => y :: sanitizeChildren xs
    | none => sanitizeChildren xs

end

/-- The literal fallback document returned by `Sanitizer.sanitize_svg_string`
when the root element itself is disallowed. -/
def fallbackErrorSVG : String :=
  "<svg xmlns=\"http://www.w3.org/2000/svg\" width=\"100\" height=\"100\"><text>Error: Root SVG removed</text></svg>"

/-- The parse of `fallbackErrorSVG` (ElementTree absorbs the `xmlns`
declaration and namespace-qualifies the tags; the text payload is not
modelled). -/
def fallbackNode : Node :=
  .mk (clark svgNS "svg") [("width", "100"), ("height", "100")]
    [.mk (clark svgNS "text") [] []]

/-- The prolog-cutting prelude of `Sanitizer.sanitize_svg_string`: when the
input starts with `<?xml`, everything through the first `?>` is dropped
before parsing (the whole input is kept when no `?>` follows). -/
def prologStripped (svg_string : String) : String :=
  if "<?xml".data.isPrefixOf svg_string.data then
    match firstIdxOf "?>".data svg_string.data with
    | some i => String.mk (svg_string.data.drop (i + 2))
    | none => svg_string
  else svg_string

/-- `Sanitizer.sanitize_svg_string`, with the external XML parser and
serializer passed as oracles: blank input yields `""`, an XML prolog is cut
before parsing, an input that is blank after the prolog or fails to parse is
returned unchanged, a disallowed root yields the literal fallback document,
and otherwise the sanitized tree is re-serialized. -/
def sanitize_svg_string (parse : String → Option Node) (ser : Node → String)
    (svg_string : String) : String :=
  if svg_string.data.all isPyWS then ""
  else
    let svg_content_part := prologStripped svg_string
    if svg_content_part.data.all isPyWS then svg_string
    else
      match parse svg_content_part with
      | none => svg_string
      | some root =>
        match sanitizeElement root with
        | none => fallbackErrorSVG
        | some r => ser r

/-- The tree-level content of `sanitize_svg_string` between parsing and
serialization: sanitize the root, falling back to (the parse of) the
fallback document when the root is disallowed. -/
def sanitizeTree (t : Node) : Node :=
  (sanitizeElement t).getD fallbackNode

/-! ## `ComplianceUtils.remove_unused_defs` (tree level)

The function parses with lxml (returning the input string on parse failure),
works on the namespace-qualified tree, and serializes back.  The tree-level
content is modelled here; every early-return branch returns the tree
unchanged. -/

/-- A `defs` element as matched by the xpath `//svg:defs` (namespace-bound,
so only the SVG-namespace-qualified tag matches). -/
def isDefsTag (t : String) : Bool := t = clark svgNS "defs"

mutual

/-- Whether the document contains any `//svg:defs` element (the tree root
included). -/
def hasDefs : Node → Bool
  | .mk t _ c => isDefsTag t || hasDefsL c

def hasDefsL : List Node → Bool
  | [] => false
  | x :: xs => hasDefs x || hasDefsL xs

end

mutual

/-- The ids collected by `defs.xpath(".//*[@id]")` over all defs sections:
ids of elements that have a *proper* `defs` ancestor.  `inDefs` records
whether the current node already has one. -/
def definedIdsN (inDefs : Bool) : Node → List String
  | .mk t a c =>
    (if inDefs then
      match getAttr a "id" with
      | some v => [v]
      | none => []
     else []) ++ definedIdsL (inDefs || isDefsTag t) c

def definedIdsL (inDefs : Bool) : List Node → List String
  | [] => []
  | x :: xs => definedIdsN inDefs x ++ definedIdsL inDefs xs

end

/-- Ids declared under `defs` sections of the whole document. -/
def definedIds (t : Node) : List String := definedIdsN false t

/-- `re.search(r'url\(#([^)]+)\)', v)`: the captured group of the leftmost
match, scanning on even past a prefix `url(#` that the full pattern cannot
complete. -/
def firstUrlId : List Char → Option (List Char)
  | [] => none
  | c :: cs =>
    if "url(#".data.isPrefixOf (c :: cs) then
      let rest := (c :: cs).drop 5
      let g := countWhile (fun ch => ch ≠ ')') rest
      if 1 ≤ g && decide (g < rest.length) then some (rest.take g)
      else firstUrlId cs
    else firstUrlId cs

/-- The presentation attributes scanned for `url(#id)` references. -/
def refAttrs : List String := ["fill", "stroke", "filter", "clip-path", "mask"]

/-- The reference ids contributed by one element's attributes: for each of
`refAttrs`, the first `url(#id)` group of its value, and the fragment id of
`element.get('href') or element.get('\x7bxlink\x7dhref', '')` when that
value starts with `#`. -/
def nodeRefIds (a : List (String × String)) : List String :=
  (refAttrs.foldr (fun attr acc =>
    (match getAttr a attr with
     | some v =>
       match firstUrlId v.data with
       | some g => [String.mk g]
       | none => []
     | none => []) ++ acc) []) ++
  (let href :=
    match getAttr a "href" with
    | some v => if v = "" then (getAttr a (clark xlinkNS "href")).getD "" else v
    | none => (getAttr a (clark xlinkNS "href")).getD ""
   match href.data with
   | '#' :: rest => [String.mk rest]
   | _ => [])

mutual

/-- All reference ids of the document (`used_ids` in the source). -/
def usedIdsN : Node → List String
  | .mk _ a c => nodeRefIds a ++ usedIdsL c

def usedIdsL : List Node → List String
  | [] => []
  | x :: xs => usedIdsN x ++ usedIdsL xs

end

def usedIds (t : Node) : List String := usedIdsN t

/-- Whether a node's `id` attribute (if any) belongs to `unused`. -/
def idIn (unused : List String) (x : Node) : Bool :=
  match getAttr x.attrs "id" with
  | some v => unused.contains v
  | none => false

mutual

/-- The removal loop: drop every element that has a proper `defs` ancestor
and whose `id` is in `unused` (its whole subtree disappears with it). -/
def pruneNode (unused : List String) (inDefs : Bool) : Node → Node
  | .mk t a c => .mk t a (pruneChildren unused (inDefs || isDefsTag t) c)

def pruneChildren (unused : List String) (inDefs : Bool) :
    List Node → List Node
  | [] => []
  | x :: xs =>
    if inDefs && idIn unused x then
      pruneChildren unused inDefs xs
    else pruneNode unused inDefs x :: pruneChildren unused inDefs xs

end

/-- `ComplianceUtils.remove_unused_defs`, tree level: no defs section, no
declared ids or no unused ids each return the document unchanged; otherwise
the unused definitions are removed. -/
def remove_unused_defs (t : Node) : Node :=
  if !(hasDefs t) then t
  else if definedIds t = [] then t
  else if (definedIds t).filter (fun i => !((usedIds t).contains i)) = [] then t
  else pruneNode ((definedIds t).filter (fun i => !((usedIds t).contains i)))
    false t

mutual

/-- All nodes of a document (the node itself and its descendants). -/
def allNodes : Node → List Node
  | .mk t a c => .mk t a c :: allNodesL c

def allNodesL : List Node → List Node
  | [] => []
  | x :: xs => allNodes x ++ allNodesL xs

end

/-! ## Claim C9: validity flag and issue list of the compliance report -/

theorem addIssue_inv (r : ComplianceReport) (b : Bool) (msg : String)
    (h : (r.is_valid = true) ↔ r.issues = []) :
    ((addIssue r b msg).is_valid = true) ↔ (addIssue r b msg).issues = [] := by
  unfold addIssue
  split
  · simp
  · exact h

theorem foldl_addIssue_inv (f : String → Bool) (g : String → String) :
    ∀ (tags : List String) (r : ComplianceReport),
      ((r.is_valid = true) ↔ r.issues = []) →
      (((tags.foldl (fun r tag => addIssue r (f tag) (g tag)) r).is_valid = true)
        ↔ (tags.foldl (fun r tag => addIssue r (f tag) (g tag)) r).issues = []) := by
  intro tags
  induction tags with
  | nil => intro r h; exact h
  | cons t ts ih =>
    intro r h
    exact ih _ (addIssue_inv r (f t) (g t) h)

/-- C9: for every input string and size bound, the report of
`check_competition_compliance` has `is_valid = True` exactly when its issue
list is empty; the check is a pure function of its two arguments (it is a
plain function here, matching the source, which only reads `svg_str`). -/
theorem C9_check_valid_iff_no_issues (svg_str : String) (max_size_bytes : Nat) :
    ((check_competition_compliance svg_str max_size_bytes).is_valid = true) ↔
      (check_competition_compliance svg_str max_size_bytes).issues = [] := by
  unfold check_competition_compliance
  apply foldl_addIssue_inv
  apply addIssue_inv
  apply addIssue_inv
  apply addIssue_inv
  simp

/-! ## Claim C8: the external-reference detection -/

theorem addIssue_invalid (r : ComplianceReport) (b : Bool) (msg : String)
    (h : r.is_valid = false) : (addIssue r b msg).is_valid = false := by
  unfold addIssue
  split
  · rfl
  · exact h

theorem addIssue_mem (r : ComplianceReport) (b : Bool) (msg x : String)
    (h : x ∈ r.issues) : x ∈ (addIssue r b msg).issues := by
  unfold addIssue
  split
  · exact List.mem_append_left _ h
  · exact h

theorem foldl_addIssue_invalid (f : String → Bool) (g : String → String) :
    ∀ (tags : List String) (r : ComplianceReport), r.is_valid = false →
      (tags.foldl (fun r tag => addIssue r (f tag) (g tag)) r).is_valid = false := by
  intro tags
  induction tags with
  | nil => intro r h; exact h
  | cons t ts ih => intro r h; exact ih _ (addIssue_invalid r (f t) (g t) h)

theorem foldl_addIssue_mem (f : String → Bool) (g : String → String) :
    ∀ (tags : List String) (r : ComplianceReport) (x : String), x ∈ r.issues →
      x ∈ (tags.foldl (fun r tag => addIssue r (f tag) (g tag)) r).issues := by
  intro tags
  induction tags with
  | nil => intro r x h; exact h
  | cons t ts ih => intro r x h; exact ih _ _ (addIssue_mem r (f t) (g t) x h)

/-- C8 counterexample: this document references an external bitmap
(`href="http://a.png"`, with both `http:` and `.png` markers present), yet
`check_competition_compliance` reports it valid, because the external-
reference branch additionally requires the literal substring `xlink:href`.
The claim, as stated for every external-resource-referencing attribute
value, is therefore false. -/
theorem C8_counterexample :
    (check_competition_compliance "<svg><image href=\"http://a.png\"/></svg>"
        10240).is_valid = true ∧
      containsSub "<svg><image href=\"http://a.png\"/></svg>" "http:" = true ∧
      containsSub (pyLower "<svg><image href=\"http://a.png\"/></svg>") ".png" =
        true := by
  decide

/-- C8 (amended): for every string that contains the literal substring
`xlink:href` *and* at least one external-resource marker (`data:`, `http:`,
`https:`, or a case-insensitive `.jpg`/`.png`/`.jpeg`), the report has
`is_valid = False` and carries the external-reference issue entry. -/
theorem C8_external_refs_flagged (svg_str : String) (max_size_bytes : Nat)
    (hx : containsSub svg_str "xlink:href" = true)
    (hm : (containsSub svg_str "data:" || containsSub svg_str "http:" ||
        containsSub svg_str "https:" ||
        containsSub (pyLower svg_str) ".jpg" ||
        containsSub (pyLower svg_str) ".png" ||
        containsSub (pyLower svg_str) ".jpeg") = true) :
    (check_competition_compliance svg_str max_size_bytes).is_valid = false ∧
      "SVG contains external image references (data:, http:, or image files)" ∈
        (check_competition_compliance svg_str max_size_bytes).issues := by
  unfold check_competition_compliance
  constructor
  · apply foldl_addIssue_invalid
    rw [show (containsSub svg_str "xlink:href" &&
        (containsSub svg_str "data:" || containsSub svg_str "http:" ||
          containsSub svg_str "https:" ||
          containsSub (pyLower svg_str) ".jpg" ||
          containsSub (pyLower svg_str) ".png" ||
          containsSub (pyLower svg_str) ".jpeg")) = true by
      rw [hx, hm]; rfl]
    rfl
  · apply foldl_addIssue_mem
    rw [show (containsSub svg_str "xlink:href" &&
        (containsSub svg_str "data:" || containsSub svg_str "http:" ||
          containsSub svg_str "https:" ||
          containsSub (pyLower svg_str) ".jpg" ||
          containsSub (pyLower svg_str) ".png" ||
          containsSub (pyLower svg_str) ".jpeg")) = true by
      rw [hx, hm]; rfl]
    unfold addIssue
    simp

/-- Witness for C8 (amended) at a concrete document. -/
theorem C8_external_refs_flagged_witness :
    (check_competition_compliance "<svg xlink:href=\"a.png\"/>" 10240).is_valid =
        false ∧
      "SVG contains external image references (data:, http:, or image files)" ∈
        (check_competition_compliance "<svg xlink:href=\"a.png\"/>" 10240).issues :=
  C8_external_refs_flagged "<svg xlink:href=\"a.png\"/>" 10240 (by decide)
    (by decide)

/-! ## Claim C7: the numeric rounding rule -/

theorem mem_digitsBase_lt (b : Nat) (hb : 0 < b) :
    ∀ fuel n d, d ∈ digitsBase b fuel n → d < b := by
  intro fuel
  induction fuel with
  | zero => intro n d h; simp [digitsBase] at h
  | succ fuel ih =>
    intro n d h
    by_cases h0 : n = 0
    · simp [digitsBase, h0] at h
    · rw [digitsBase, if_neg h0] at h
      rcases List.mem_cons.mp h with h1 | h1
      · subst h1; exact Nat.mod_lt _ hb
      · exact ih _ _ h1

theorem digitChar_ne_dot (d : Nat) (hd : d < 10) : Nat.digitChar d ≠ '.' := by
  interval_cases d <;> decide

theorem dot_not_mem_decRepr (n : Nat) : '.' ∉ decRepr n := by
  unfold decRepr
  split
  · decide
  · unfold decDigitsRaw
    intro h
    rw [List.mem_reverse, List.mem_map] at h
    obtain ⟨d, hd, hdc⟩ := h
    exact digitChar_ne_dot d (mem_digitsBase_lt 10 (by omega) n n d hd) hdc

/-- C7 counterexample: the claim cites both rounding helpers, but they do
not follow one rule.  At value `12.04` and precision `1` the rounded value is
`12.0` (`roundHalfEven 1204 10 = 120` tenths, residue `0 mod 10`, so the
rounded value equals its own integer truncation, and the claimed rule demands
the bare literal `12`): `Sanitizer.simplify_paths` (the optimizer's path
simplification) indeed emits `12`, but `ComplianceUtils.limit_decimal_precision`
tests `num == int(num)` on the UNROUNDED value and emits `12.0` (shown inside
a matched attribute of its attribute pass) — refuting the rule for the cited
validator helper. -/
theorem C7_counterexample :
    roundHalfEven (natOfDigits "1204".data) 10 % 10 = 0 ∧
      replace_number 1 "12.04".data = "12".data ∧
      pyRoundToken 1 "12.04".data = "12.0".data ∧
      simplify_paths 1 "<p d=\"12.04\"/>" = "<p d=\"12\"/>" ∧
      limit_decimal_precision 1 "<p x=\"12.04\"/>" = "<p x=\"12.0\"/>" := by
  decide

/-- C7 (amended): `replace_number`, the rounding helper of
`Sanitizer.simplify_paths`, follows the claimed rule exactly.  Writing its
rounded value as the exact scaled decimal `m / 10 ^ q` (with
`simplifyRounded p tok = (m, q)`, so it carries `q ≤ p` fractional digits),
it emits the bare integer literal — with no decimal point anywhere — whenever
the rounded value equals its own integer truncation (`m` divisible by
`10 ^ q`), and `str` of the rounded value otherwise; the three quoted
examples hold.  The helper of `ComplianceUtils.limit_decimal_precision` does
NOT follow the rule: it tests the unrounded value (see the
counterexample). -/
theorem C7_round_repr (p : Nat) (tok : List Char) :
    (simplifyRounded p tok).2 ≤ p ∧
    ((simplifyRounded p tok).1 % 10 ^ (simplifyRounded p tok).2 = 0 →
      replace_number p tok =
          intRepr (parseTok tok).1
            ((simplifyRounded p tok).1 / 10 ^ (simplifyRounded p tok).2) ∧
        '.' ∉ replace_number p tok) ∧
    ((simplifyRounded p tok).1 % 10 ^ (simplifyRounded p tok).2 ≠ 0 →
      replace_number p tok =
        floatRepr (parseTok tok).1 (simplifyRounded p tok).1
          (simplifyRounded p tok).2) ∧
    (replace_number 1 "12.0".data = "12".data ∧
      replace_number 1 "12.34".data = "12.3".data ∧
      replace_number 0 "12.0".data = "12".data) := by
  refine ⟨?_, ?_, ?_, by decide, by decide, by decide⟩
  · unfold simplifyRounded
    split
    · next hle => simpa using hle
    · simp
  · intro h0
    constructor
    · unfold replace_number
      rw [if_pos h0]
    · unfold replace_number
      rw [if_pos h0]
      unfold intRepr
      intro hmem
      rcases List.mem_append.mp hmem with h1 | h1
      · revert h1
        split <;> simp
      · exact dot_not_mem_decRepr _ h1
  · intro hne
    unfold replace_number
    rw [if_neg hne]

/-- Witness for C7 (amended): at `12.04`, precision `1`, the rounded value
`120 / 10` is integral and the bare literal is emitted; at `12.36` it is not
and `str(12.4)` is emitted. -/
theorem C7_round_repr_witness :
    (replace_number 1 "12.04".data =
        intRepr (parseTok "12.04".data).1
          ((simplifyRounded 1 "12.04".data).1 /
            10 ^ (simplifyRounded 1 "12.04".data).2) ∧
      '.' ∉ replace_number 1 "12.04".data) ∧
    replace_number 1 "12.36".data =
      floatRepr (parseTok "12.36".data).1 (simplifyRounded 1 "12.36".data).1
        (simplifyRounded 1 "12.36".data).2 :=
  ⟨(C7_round_repr 1 "12.04".data).2.1 (by decide),
    (C7_round_repr 1 "12.36".data).2.2.1 (by decide)⟩

/-! ## Claim C10: the opacity exemptions of `limit_decimal_precision` -/

/-- C10 counterexample: the attribute `x1` is not an opacity attribute, so
the claim requires its decimal value to be rounded; but the attribute-name
class `[a-zA-Z\-:]+` has no digits, `x1` cannot be matched, and the value
survives unrounded (the second conjunct shows the rounding that the claim
would demand). -/
theorem C10_counterexample :
    limit_decimal_precision 1 "<line x1=\"3.56\"/>" = "<line x1=\"3.56\"/>" ∧
      pyRoundToken 1 "3.56".data = "3.6".data := by
  constructor
  · decide
  · decide

/-- C10 (amended): every attribute match of the first pass whose lower-cased
name is `opacity`, `fill-opacity` or `stroke-opacity` is re-emitted exactly
as matched (value untouched); rounding applies to the other matched
attributes — those whose names consist of letters, hyphens and colons only —
and to `d="..."` path data, while attributes with digits in their names
(such as `x1`) are never matched, as the concrete document shows. -/
theorem C10_opacity_preserved (p : Nat) (l : List Char) (k : Nat)
    (rep : List Char) (hm : mAttrNum p l = some (k, rep))
    (hskip : skipAttrs.contains
      ((l.take (countWhile isAttrNameChar l)).map pyLowerChar) = true) :
    rep = l.take k ∧
      limit_decimal_precision 1
          "<circle cx=\"1.56\" opacity=\"2.56\" x1=\"3.56\"/>" =
        "<circle cx=\"1.6\" opacity=\"2.56\" x1=\"3.56\"/>" := by
  refine ⟨?_, by decide⟩
  simp only [mAttrNum] at hm
  repeat' split at hm
  all_goals
    first
      | (simp at hm; done)
      | (simp only [Option.some.injEq, Prod.mk.injEq] at hm
         obtain ⟨h1, h2⟩ := hm
         subst h1
         exact h2.symm)

/-- Witness for C10 (amended) at a concrete `opacity` match. -/
theorem C10_opacity_preserved_witness :
    "opacity=\"1.56\"".data.take 14 = "opacity=\"1.56\"".data.take 14 ∧
      limit_decimal_precision 1
          "<circle cx=\"1.56\" opacity=\"2.56\" x1=\"3.56\"/>" =
        "<circle cx=\"1.6\" opacity=\"2.56\" x1=\"3.56\"/>" := by
  have h := C10_opacity_preserved 1 "opacity=\"1.56\"".data 14
    ("opacity=\"1.56\"".data.take 14) (by decide) (by decide)
  exact ⟨rfl, h.2⟩

/-! ## Claim C4: the fail-open policy of `sanitize_svg_string` -/

/-- C4 counterexample: a whitespace-only input cannot be parsed as an XML
tree (the parse oracle is irrelevant: the blank-input branch returns before
parsing), yet the stage returns `""`, not its input.  `str.strip()` strips
Python whitespace, not just ASCII whitespace, so the file-separator control
`"\x1c"` is such an input too. -/
theorem C4_counterexample :
    sanitize_svg_string (fun _ => none) (fun _ => "") "   " = "" ∧
      ("" : String) ≠ "   " ∧
      sanitize_svg_string (fun _ => none) (fun _ => "") "\x1c" = "" ∧
      ("" : String) ≠ "\x1c" := by
  refine ⟨by decide, by decide, by decide, by decide⟩

/-- C4 (amended): for every input that is not blank (not whitespace-only)
and whose prolog-stripped content the XML parser rejects, the stage returns
exactly its input, unchanged (and, being a total function, never raises);
blank inputs are the exception forced by the counterexample: they return
`""`. -/
theorem C4_parse_failure_returns_input (parse : String → Option Node)
    (ser : Node → String) (svg_string : String)
    (hblank : svg_string.data.all isPyWS = false)
    (hparse : parse (prologStripped svg_string) = none) :
    sanitize_svg_string parse ser svg_string = svg_string := by
  unfold sanitize_svg_string
  rw [hblank]
  simp only [Bool.false_eq_true, if_false]
  split
  · rfl
  · rw [hparse]

/-- Witness for C4 (amended) at a concrete unparseable input. -/
theorem C4_parse_failure_returns_input_witness :
    sanitize_svg_string (fun _ => none) (fun _ => "") "<oops" = "<oops" :=
  C4_parse_failure_returns_input (fun _ => none) (fun _ => "") "<oops"
    (by decide) rfl

/-! ## Claim C3: the allowlist invariant after sanitization -/

/-- The claim's allowlist invariant for one node, attribute and tag names
compared by their namespace-stripped local names: tag in `ALLOWED_SVG_TAGS`,
and no attribute in `PROHIBITED_SVG_ATTRIBUTES` except `id` on a
definition-kind tag. -/
def allowlistOk (n : Node) : Bool :=
  ALLOWED_SVG_TAGS.contains (stripNS n.tag) &&
    n.attrs.all (fun p =>
      !(PROHIBITED_SVG_ATTRIBUTES.contains (stripNS p.1)) ||
        (decide (stripNS p.1 = "id") && defChildTags.contains (stripNS n.tag)))

theorem keepAttr_sound (tg raw : String) (h : keepAttr tg raw = true) :
    PROHIBITED_SVG_ATTRIBUTES.contains (stripNS raw) = false ∨
      (stripNS raw = "id" ∧ defChildTags.contains tg = true) := by
  cases hp : PROHIBITED_SVG_ATTRIBUTES.contains (stripNS raw) with
  | false => exact Or.inl rfl
  | true =>
    right
    cases hid : (decide (stripNS raw = "id") && defChildTags.contains tg) with
    | true =>
      rcases (Bool.and_eq_true _ _).mp hid with ⟨h1, h2⟩
      exact ⟨of_decide_eq_true h1, h2⟩
    | false =>
      exfalso
      unfold keepAttr at h
      rw [hp, hid] at h
      simp at h

/-- C3 counterexample: on the document `<div/>` the root tag is disallowed,
so `sanitize_svg_string` returns the literal fallback document — which
itself contains a `text` node whose tag is *not* in the allowed set, so the
claimed invariant fails on the output of `sanitize_svg_string` for this
input. -/
theorem C3_counterexample :
    sanitizeTree (Node.mk "div" [] []) = fallbackNode ∧
      (allNodes fallbackNode).all allowlistOk = false := by
  exact ⟨rfl, by decide⟩

/-- C3 (amended): whenever the root element is allowed (so the sanitizer
returns the sanitized tree rather than the fallback document), every node of
the result has an allowed tag and carries no prohibited attribute except
`id` on definition-kind tags. -/
theorem C3_sanitize_allowlist :
    ∀ t t', sanitizeElement t = some t' →
      ∀ n, n ∈ allNodes t' → allowlistOk n = true := by
  refine (node_mutual_ind
    (fun t => ∀ t', sanitizeElement t = some t' →
      ∀ n, n ∈ allNodes t' → allowlistOk n = true)
    (fun c => ∀ n, n ∈ allNodesL (sanitizeChildren c) → allowlistOk n = true)
    ?_ ?_ ?_).1
  · intro t a c ih t' hs n hn
    unfold sanitizeElement at hs
    split at hs
    · rename_i hall
      have ht' := (Option.some.injEq _ _).mp hs
      subst ht'
      rw [show allNodes (Node.mk t (a.filter fun p => keepAttr (stripNS t) p.1)
          (sanitizeChildren c)) =
        Node.mk t (a.filter fun p => keepAttr (stripNS t) p.1)
          (sanitizeChildren c) :: allNodesL (sanitizeChildren c) from rfl] at hn
      rcases List.mem_cons.mp hn with h1 | h1
      · subst h1
        unfold allowlistOk
        refine (Bool.and_eq_true _ _).mpr ⟨hall, ?_⟩
        rw [List.all_eq_true]
        intro p hp
        rcases keepAttr_sound (stripNS t) p.1 (List.mem_filter.mp hp).2 with
          h | ⟨h1, h2⟩
        · have h' : stripNS p.1 ∉ PROHIBITED_SVG_ATTRIBUTES := by simpa using h
          simp [Node.tag, Node.attrs, h']
        · have h2' : stripNS t ∈ defChildTags := by simpa using h2
          simp [Node.tag, Node.attrs, h1, h2']
      · exact ih n h1
    · exact absurd hs (by simp)
  · intro n hn
    simp [allNodesL] at hn
  · intro x xs hx hxs n hn
    cases hse : sanitizeElement x with
    | some y =>
      rw [show sanitizeChildren (x :: xs) = y :: sanitizeChildren xs from by
        rw [sanitizeChildren, hse]] at hn
      rw [show allNodesL (y :: sanitizeChildren xs) =
        allNodes y ++ allNodesL (sanitizeChildren xs) from rfl] at hn
      rcases List.mem_append.mp hn with h1 | h1
      · exact hx y hse n h1
      · exact hxs n h1
    | none =>
      rw [show sanitizeChildren (x :: xs) = sanitizeChildren xs from by
        rw [sanitizeChildren, hse]] at hn
      exact hxs n hn

/-- Witness for C3 (amended): sanitizing `<svg style="x"/>` keeps the root
and strips the prohibited attribute. -/
theorem C3_sanitize_allowlist_witness :
    allowlistOk (Node.mk "svg" [] []) = true :=
  C3_sanitize_allowlist (Node.mk "svg" [("style", "x")] [])
    (Node.mk "svg" [] []) rfl (Node.mk "svg" [] [])
    (by rw [show allNodes (Node.mk "svg" [] []) = [Node.mk "svg" [] []] from
        rfl]
        exact List.mem_singleton.mpr rfl)

/-! ## Pruning lemmas shared by claims C1 and C2 -/

mutual

/-- No element with a proper `defs` ancestor contributes any reference
(`url(#...)` in a presentation attribute, or a fragment href): the
definitions reference nothing themselves. -/
def defsRefFree (inDefs : Bool) : Node → Bool
  | .mk t a c =>
    (!inDefs || (nodeRefIds a).isEmpty) &&
      defsRefFreeL (inDefs || isDefsTag t) c

def defsRefFreeL (inDefs : Bool) : List Node → Bool
  | [] => true
  | x :: xs => defsRefFree inDefs x && defsRefFreeL inDefs xs

end

theorem defsRefFree_true_usedIds_nil :
    (∀ x, defsRefFree true x = true → usedIdsN x = []) ∧
    (∀ l, defsRefFreeL true l = true → usedIdsL l = []) := by
  refine node_mutual_ind
    (fun x => defsRefFree true x = true → usedIdsN x = [])
    (fun l => defsRefFreeL true l = true → usedIdsL l = []) ?_ ?_ ?_
  · intro t a c ih h
    rw [defsRefFree] at h
    rcases (Bool.and_eq_true _ _).mp h with ⟨h1, h2⟩
    simp only [Bool.not_true, Bool.false_or, List.isEmpty_iff] at h1
    rw [usedIdsN, h1, List.nil_append]
    rw [show (true || isDefsTag t) = true from rfl] at h2
    exact ih h2
  · intro _
    rfl
  · intro x xs hx hxs h
    rw [defsRefFreeL] at h
    rcases (Bool.and_eq_true _ _).mp h with ⟨h1, h2⟩
    rw [usedIdsL, hx h1, hxs h2, List.nil_append]

theorem usedIds_prune (unused : List String) :
    (∀ x, ∀ b, defsRefFree b x = true →
      usedIdsN (pruneNode unused b x) = usedIdsN x) ∧
    (∀ l, ∀ b, defsRefFreeL b l = true →
      usedIdsL (pruneChildren unused b l) = usedIdsL l) := by
  refine node_mutual_ind
    (fun x => ∀ b, defsRefFree b x = true →
      usedIdsN (pruneNode unused b x) = usedIdsN x)
    (fun l => ∀ b, defsRefFreeL b l = true →
      usedIdsL (pruneChildren unused b l) = usedIdsL l) ?_ ?_ ?_
  · intro t a c ih b h
    rw [defsRefFree] at h
    rcases (Bool.and_eq_true _ _).mp h with ⟨_, h2⟩
    rw [pruneNode, usedIdsN, usedIdsN, ih (b || isDefsTag t) h2]
  · intro b _
    rfl
  · intro x xs hx hxs b h
    rw [defsRefFreeL] at h
    rcases (Bool.and_eq_true _ _).mp h with ⟨h1, h2⟩
    rw [pruneChildren]
    split
    · rename_i hdrop
      rcases (Bool.and_eq_true _ _).mp hdrop with ⟨hb, _⟩
      subst hb
      rw [usedIdsL, hxs true h2,
        defsRefFree_true_usedIds_nil.1 x h1, List.nil_append]
    · rw [usedIdsL, usedIdsL, hx b h1, hxs b h2]

theorem definedIds_prune (unused : List String) :
    (∀ x, ∀ b, (b = true → idIn unused x = false) → ∀ i,
      i ∈ definedIdsN b (pruneNode unused b x) →
        i ∈ definedIdsN b x ∧ unused.contains i = false) ∧
    (∀ l, ∀ b, ∀ i, i ∈ definedIdsL b (pruneChildren unused b l) →
      i ∈ definedIdsL b l ∧ unused.contains i = false) := by
  refine node_mutual_ind _ _ ?_ ?_ ?_
  · intro t a c ih b hown i hi
    rw [pruneNode, definedIdsN] at hi
    rw [definedIdsN]
    rcases List.mem_append.mp hi with h1 | h1
    · refine ⟨List.mem_append_left _ h1, ?_⟩
      revert h1
      split
      · rename_i hb
        subst hb
        cases hga : getAttr a "id" with
        | none => simp [hga]
        | some v =>
          simp only [hga]
          intro h1
          rcases List.mem_singleton.mp h1 with rfl
          have := hown rfl
          rw [idIn, Node.attrs] at this
          simpa [hga] using this
      · intro h1
        exact absurd h1 (List.not_mem_nil i)
    · have := ih (b || isDefsTag t) i h1
      exact ⟨List.mem_append_right _ this.1, this.2⟩
  · intro b i hi
    exact absurd hi (List.not_mem_nil i)
  · intro x xs hx hxs b i hi
    rw [pruneChildren] at hi
    revert hi
    split
    · intro hi
      have := hxs b i hi
      rw [definedIdsL]
      exact ⟨List.mem_append_right _ this.1, this.2⟩
    · rename_i hkeep
      intro hi
      rw [definedIdsL] at hi
      rw [definedIdsL]
      rcases List.mem_append.mp hi with h1 | h1
      · have hown : b = true → idIn unused x = false := by
          intro hb
          subst hb
          cases hxi : idIn unused x with
          | false => rfl
          | true => exact absurd (by rw [hxi]; rfl) hkeep
        have := hx b hown i h1
        exact ⟨List.mem_append_left _ this.1, this.2⟩
      · have := hxs b i h1
        exact ⟨List.mem_append_right _ this.1, this.2⟩

theorem definedIds_nil_of_no_defs :
    (∀ t, hasDefs t = false → definedIdsN false t = []) ∧
    (∀ l, hasDefsL l = false → definedIdsL false l = []) := by
  refine node_mutual_ind _ _ ?_ ?_ ?_
  · intro t a c ih h
    rw [hasDefs] at h
    rcases (Bool.or_eq_false_iff).mp h with ⟨h1, h2⟩
    rw [definedIdsN, h1]
    exact ih h2
  · intro _
    rfl
  · intro x xs hx hxs h
    rw [hasDefsL] at h
    rcases (Bool.or_eq_false_iff).mp h with ⟨h1, h2⟩
    rw [definedIdsL, hx h1, hxs h2]
    rfl

theorem prune_fixpoint_of_defined_subset_used (t : Node)
    (h : ∀ i, i ∈ definedIds t → i ∈ usedIds t) :
    remove_unused_defs t = t := by
  unfold remove_unused_defs
  split
  · rfl
  · split
    · rfl
    · split
      · rfl
      · rename_i h3
        exfalso
        apply h3
        apply List.filter_eq_nil_iff.mpr
        intro i hi
        simp only [Bool.not_eq_true', Bool.not_eq_false]
        exact List.elem_eq_true_of_mem (h i hi)

theorem sanitizeElement_idem :
    (∀ x, ∀ t', sanitizeElement x = some t' → sanitizeElement t' = some t') ∧
    (∀ l, sanitizeChildren (sanitizeChildren l) = sanitizeChildren l) := by
  refine node_mutual_ind _ _ ?_ ?_ ?_
  · intro t a c ih t' hs
    unfold sanitizeElement at hs
    split at hs
    · rename_i hall
      have ht' := (Option.some.injEq _ _).mp hs
      subst ht'
      unfold sanitizeElement
      rw [if_pos hall, ih, List.filter_filter]
      simp only [Bool.and_self]
    · exact absurd hs (by simp)
  · rfl
  · intro x xs hx hxs
    cases hse : sanitizeElement x with
    | some y =>
      rw [show sanitizeChildren (x :: xs) = y :: sanitizeChildren xs from by
        rw [sanitizeChildren, hse]]
      rw [sanitizeChildren, hx y hse, hxs]
    | none =>
      rw [show sanitizeChildren (x :: xs) = sanitizeChildren xs from by
        rw [sanitizeChildren, hse]]
      exact hxs

/-- The chained-definitions document: `defs` holds a `pattern` `p1` that
references gradient `g1` by `fill="url(#g1)"`, and nothing references `p1`. -/
def chainDoc : Node :=
  .mk (clark svgNS "svg") []
    [.mk (clark svgNS "defs") []
      [.mk (clark svgNS "pattern") [("id", "p1"), ("fill", "url(#g1)")] [],
       .mk (clark svgNS "linearGradient") [("id", "g1")] []]]

/-- C2 counterexample: `remove_unused_defs` is not idempotent.  On
`chainDoc` the first run removes only `p1` (as `g1` is referenced by `p1`'s
own `fill`), after which `g1` has become unreferenced, so a second run
removes `g1` as well: the two outputs differ (their declared-id sets are
`["g1"]` and `[]`). -/
theorem C2_counterexample :
    remove_unused_defs (remove_unused_defs chainDoc) ≠
      remove_unused_defs chainDoc := by
  intro h
  have h2 := congrArg definedIds h
  rw [show definedIds (remove_unused_defs (remove_unused_defs chainDoc)) =
    [] from rfl] at h2
  rw [show definedIds (remove_unused_defs chainDoc) = ["g1"] from rfl] at h2
  exact absurd h2 (by decide)

/-- C2 (amended): at tree level (the parse/serialize round trip being the
abstraction boundary), sanitization is idempotent whenever the root element
is retained — re-sanitizing a sanitized tree changes nothing — and the
pruning pass is idempotent on documents whose definitions reference nothing
themselves (no element under `defs` carries a `url(#...)` reference or
fragment href), which is exactly the hypothesis the counterexample
violates. -/
theorem C2_cleanup_idempotent :
    (∀ x t', sanitizeElement x = some t' → sanitizeElement t' = some t') ∧
    (∀ t, defsRefFree false t = true →
      remove_unused_defs (remove_unused_defs t) = remove_unused_defs t) := by
  refine ⟨sanitizeElement_idem.1, ?_⟩
  intro t hfree
  apply prune_fixpoint_of_defined_subset_used
  intro i hi
  by_cases hd : (!(hasDefs t)) = true
  · rw [remove_unused_defs, if_pos hd] at hi ⊢
    rw [show definedIds t = definedIdsN false t from rfl,
      definedIds_nil_of_no_defs.1 t (by simpa using hd)] at hi
    exact absurd hi (List.not_mem_nil i)
  · rw [remove_unused_defs, if_neg hd] at hi ⊢
    by_cases h2 : definedIds t = []
    · rw [if_pos h2] at hi ⊢
      rw [h2] at hi
      exact absurd hi (List.not_mem_nil i)
    · rw [if_neg h2] at hi ⊢
      by_cases h3 :
          (definedIds t).filter (fun i => !((usedIds t).contains i)) = []
      · rw [if_pos h3] at hi ⊢
        have := List.filter_eq_nil_iff.mp h3 i hi
        simp only [Bool.not_eq_true', Bool.not_eq_false] at this
        exact List.mem_of_elem_eq_true this
      · rw [if_neg h3] at hi ⊢
        have hA := (definedIds_prune _).1 t false
          (fun hb => absurd hb Bool.false_ne_true) i hi
        have hU : i ∈ usedIds t := by
          cases hc : (usedIds t).contains i with
          | true => exact List.mem_of_elem_eq_true hc
          | false =>
            exfalso
            have hmemf : i ∈ (definedIds t).filter
                (fun j => !((usedIds t).contains j)) :=
              List.mem_filter.mpr ⟨hA.1, by rw [hc]; rfl⟩
            have h5 : ((definedIds t).filter
                (fun j => !((usedIds t).contains j))).contains i = true :=
              List.elem_eq_true_of_mem hmemf
            rw [hA.2] at h5
            exact Bool.false_ne_true h5
        rw [show usedIds (pruneNode ((definedIds t).filter
            (fun i => !((usedIds t).contains i))) false t) =
          usedIdsN (pruneNode ((definedIds t).filter
            (fun i => !((usedIds t).contains i))) false t) from rfl,
          (usedIds_prune _).1 t false hfree]
        exact hU

/-- Witness for C2 (amended): a sanitized `g` element re-sanitizes to
itself, and a document whose single gradient is referenced only from
outside `defs` prunes to a fixpoint. -/
theorem C2_cleanup_idempotent_witness :
    sanitizeElement (Node.mk "g" [] []) = some (Node.mk "g" [] []) ∧
      remove_unused_defs (remove_unused_defs (Node.mk (clark svgNS "svg") []
        [Node.mk (clark svgNS "defs") []
          [Node.mk (clark svgNS "linearGradient") [("id", "g1")] []],
         Node.mk (clark svgNS "rect") [("fill", "url(#g1)")] []])) =
      remove_unused_defs (Node.mk (clark svgNS "svg") []
        [Node.mk (clark svgNS "defs") []
          [Node.mk (clark svgNS "linearGradient") [("id", "g1")] []],
         Node.mk (clark svgNS "rect") [("fill", "url(#g1)")] []]) :=
  ⟨C2_cleanup_idempotent.1 (Node.mk "g" [("style", "s")] [])
      (Node.mk "g" [] []) rfl,
   C2_cleanup_idempotent.2 _ (by decide)⟩

/-! ## Claim C1: reachability after pruning -/

mutual

/-- No `id` attribute anywhere in this subtree. -/
def noIdsBelow : Node → Bool
  | .mk _ a c => (getAttr a "id").isNone && noIdsBelowL c

def noIdsBelowL : List Node → Bool
  | [] => true
  | x :: xs => noIdsBelow x && noIdsBelowL xs

end

mutual

/-- Definitions are flat: no element that has a proper `defs` ancestor and
carries an `id` has any `id`-carrying descendant. -/
def flatDefs (inDefs : Bool) : Node → Bool
  | .mk t a c =>
    (!(inDefs && (getAttr a "id").isSome) || noIdsBelowL c) &&
      flatDefsL (inDefs || isDefsTag t) c

def flatDefsL (inDefs : Bool) : List Node → Bool
  | [] => true
  | x :: xs => flatDefs inDefs x && flatDefsL inDefs xs

end

theorem definedIds_nil_of_noIdsBelow :
    (∀ x, ∀ b, noIdsBelow x = true → definedIdsN b x = []) ∧
    (∀ l, ∀ b, noIdsBelowL l = true → definedIdsL b l = []) := by
  refine node_mutual_ind _ _ ?_ ?_ ?_
  · intro t a c ih b h
    rw [noIdsBelow] at h
    rcases (Bool.and_eq_true _ _).mp h with ⟨h1, h2⟩
    rw [definedIdsN, ih (b || isDefsTag t) h2]
    rw [Option.isNone_iff_eq_none] at h1
    rw [h1]
    split <;> rfl
  · intro b _
    rfl
  · intro x xs hx hxs b h
    rw [noIdsBelowL] at h
    rcases (Bool.and_eq_true _ _).mp h with ⟨h1, h2⟩
    rw [definedIdsL, hx b h1, hxs b h2]
    rfl

theorem definedIds_prune_preserved (unused : List String) :
    (∀ x, ∀ b, flatDefs b x = true → ∀ i, i ∈ definedIdsN b x →
      unused.contains i = false → i ∈ definedIdsN b (pruneNode unused b x)) ∧
    (∀ l, ∀ b, flatDefsL b l = true → ∀ i, i ∈ definedIdsL b l →
      unused.contains i = false →
        i ∈ definedIdsL b (pruneChildren unused b l)) := by
  refine node_mutual_ind _ _ ?_ ?_ ?_
  · intro t a c ih b hflat i hi hni
    rw [flatDefs] at hflat
    rcases (Bool.and_eq_true _ _).mp hflat with ⟨_, hfl⟩
    rw [definedIdsN] at hi
    rw [pruneNode, definedIdsN]
    rcases List.mem_append.mp hi with h1 | h1
    · exact List.mem_append_left _ h1
    · exact List.mem_append_right _
        (ih (b || isDefsTag t) hfl i h1 hni)
  · intro b _ i hi _
    exact absurd hi (List.not_mem_nil i)
  · intro x xs hx hxs b hflat i hi hni
    rw [flatDefsL] at hflat
    rcases (Bool.and_eq_true _ _).mp hflat with ⟨hf1, hf2⟩
    rw [definedIdsL] at hi
    rw [pruneChildren]
    split
    · rename_i hdrop
      rcases (Bool.and_eq_true _ _).mp hdrop with ⟨hb, hidin⟩
      subst hb
      rcases List.mem_append.mp hi with h1 | h1
      · exfalso
        obtain ⟨tg, aa, cc⟩ := x
        rw [idIn, show (Node.mk tg aa cc).attrs = aa from rfl] at hidin
        rw [definedIdsN] at h1
        rw [flatDefs] at hf1
        rcases (Bool.and_eq_true _ _).mp hf1 with ⟨hfa, _⟩
        cases hga : getAttr aa "id" with
        | none =>
          rw [hga] at hidin
          exact Bool.false_ne_true hidin
        | some v =>
          rw [hga] at hidin
          have hvu : unused.contains v = true := hidin
          rw [hga] at hfa
          simp only [Option.isSome_some, Bool.true_and, Bool.not_true,
            Bool.false_or] at hfa
          rcases List.mem_append.mp h1 with h2 | h2
          · rw [hga] at h2
            have h2x : i ∈ [v] := by simpa using h2
            rcases List.mem_singleton.mp h2x with rfl
            rw [hvu] at hni
            exact Bool.noConfusion hni
          · rw [definedIds_nil_of_noIdsBelow.2 cc (true || isDefsTag tg)
              hfa] at h2
            exact List.not_mem_nil i h2
      · exact hxs true hf2 i h1 hni
    · rcases List.mem_append.mp hi with h1 | h1
      · rw [definedIdsL]
        exact List.mem_append_left _ (hx b hf1 i h1 hni)
      · rw [definedIdsL]
        exact List.mem_append_right _ (hxs b hf2 i h1 hni)

/-- C1 counterexample: after one pruning run on `chainDoc` the gradient
`g1` is retained under `defs` (its only reference came from the pattern
`p1`), but `p1` was removed, so the pruned document contains *no* reference
at all: a retained Definition with zero references, refuting the claimed
post-state invariant. -/
theorem C1_counterexample :
    definedIds (remove_unused_defs chainDoc) = ["g1"] ∧
      usedIds (remove_unused_defs chainDoc) = [] :=
  ⟨rfl, rfl⟩

/-- C1 (amended): after one pruning run, (a) every Definition id retained
under `defs` had at least one reference in the *input* document (the
references the pass collects: first `url(#id)` occurrence per
fill/stroke/filter/clip-path/mask value, and fragment hrefs) — not
necessarily in the output, as the counterexample shows; and (b) when
definitions are flat (no definition nested inside an `id`-carrying
definition), every collected reference that resolves to a declared id still
resolves after the pass: no such reference points to a removed
Definition. -/
theorem C1_prune_reachability (t : Node) :
    (∀ i, i ∈ definedIds (remove_unused_defs t) → i ∈ usedIds t) ∧
      (flatDefs false t = true → ∀ i, i ∈ usedIds t → i ∈ definedIds t →
        i ∈ definedIds (remove_unused_defs t)) := by
  constructor
  · intro i hi
    by_cases hd : (!(hasDefs t)) = true
    · rw [remove_unused_defs, if_pos hd] at hi
      rw [show definedIds t = definedIdsN false t from rfl,
        definedIds_nil_of_no_defs.1 t (by simpa using hd)] at hi
      exact absurd hi (List.not_mem_nil i)
    · rw [remove_unused_defs, if_neg hd] at hi
      by_cases h2 : definedIds t = []
      · rw [if_pos h2, h2] at hi
        exact absurd hi (List.not_mem_nil i)
      · rw [if_neg h2] at hi
        by_cases h3 :
            (definedIds t).filter (fun i => !((usedIds t).contains i)) = []
        · rw [if_pos h3] at hi
          have := List.filter_eq_nil_iff.mp h3 i hi
          simp only [Bool.not_eq_true', Bool.not_eq_false] at this
          exact List.mem_of_elem_eq_true this
        · rw [if_neg h3] at hi
          have hA := (definedIds_prune _).1 t false
            (fun hb => absurd hb Bool.false_ne_true) i hi
          cases hc : (usedIds t).contains i with
          | true => exact List.mem_of_elem_eq_true hc
          | false =>
            exfalso
            have hmemf : i ∈ (definedIds t).filter
                (fun j => !((usedIds t).contains j)) :=
              List.mem_filter.mpr ⟨hA.1, by rw [hc]; rfl⟩
            have h5 : ((definedIds t).filter
                (fun j => !((usedIds t).contains j))).contains i = true :=
              List.elem_eq_true_of_mem hmemf
            rw [hA.2] at h5
            exact Bool.false_ne_true h5
  · intro hflat i hiU hiD
    by_cases hd : (!(hasDefs t)) = true
    · rw [remove_unused_defs, if_pos hd]
      exact hiD
    · rw [remove_unused_defs, if_neg hd]
      by_cases h2 : definedIds t = []
      · rw [if_pos h2]
        exact hiD
      · rw [if_neg h2]
        by_cases h3 :
            (definedIds t).filter (fun i => !((usedIds t).contains i)) = []
        · rw [if_pos h3]
          exact hiD
        · rw [if_neg h3]
          have hni : ((definedIds t).filter
              (fun i => !((usedIds t).contains i))).contains i = false := by
            cases hc : ((definedIds t).filter
                (fun i => !((usedIds t).contains i))).contains i with
            | false => rfl
            | true =>
              exfalso
              have hmem := List.mem_of_elem_eq_true hc
              have hpred := (List.mem_filter.mp hmem).2
              simp only [Bool.not_eq_true'] at hpred
              have hcu : (usedIds t).contains i = true :=
                List.elem_eq_true_of_mem hiU
              rw [hcu] at hpred
              exact Bool.noConfusion hpred
          exact (definedIds_prune_preserved _).1 t false hflat i hiD hni

/-- Witness for C1 (amended) on a document whose single `pattern` definition
is referenced by a `circle` outside `defs`. -/
theorem C1_prune_reachability_witness :
    "pt1" ∈ usedIds (Node.mk (clark svgNS "svg") []
      [Node.mk (clark svgNS "defs") []
        [Node.mk (clark svgNS "pattern") [("id", "pt1")] []],
       Node.mk (clark svgNS "circle") [("fill", "url(#pt1)")] []]) ∧
    "pt1" ∈ definedIds (remove_unused_defs (Node.mk (clark svgNS "svg") []
      [Node.mk (clark svgNS "defs") []
        [Node.mk (clark svgNS "pattern") [("id", "pt1")] []],
       Node.mk (clark svgNS "circle") [("fill", "url(#pt1)")] []])) :=
  ⟨(C1_prune_reachability _).1 "pt1" (by decide),
   (C1_prune_reachability _).2 (by decide) "pt1" (by decide) (by decide)⟩

/-! ## Claim C5: budget overrun is terminal but successful -/

/-- C5: for every nonempty input whose fallback (STANDARD-tier) output still
exceeds `MAX_SVG_SIZE_BYTES` and whose AGGRESSIVE-tier output also still
exceeds it, `optimize_svg_string` returns — it is a total function, so it
never raises — the AGGRESSIVE-tier artifact itself, together with the
`budgetNotMet` diagnostic (the `CRITICAL` size log) carrying the final
size. -/
theorem C5_budget_overrun_terminal (s : String) (hne : s ≠ "")
    (h1 : utf8Len (applyFallbackOptimization s) > MAX_SVG_SIZE_BYTES)
    (h2 : utf8Len (applyAggressiveOptimization (applyFallbackOptimization s)) >
      MAX_SVG_SIZE_BYTES) :
    optimize_svg_string s =
      (applyAggressiveOptimization (applyFallbackOptimization s),
        [OptLog.aggressiveAttempt (utf8Len (applyFallbackOptimization s)),
         OptLog.budgetNotMet
           (utf8Len (applyAggressiveOptimization
             (applyFallbackOptimization s)))]) := by
  unfold optimize_svg_string
  rw [if_neg hne, if_pos h1, if_pos h2]

/-! Identity of every optimization pass on a string of `'a'`s, for the C5
witness: none of the matchers can start a match at a letter `'a'`. -/

theorem scanSub_replicate_a
    (m : List Char → Option (Nat × List Char))
    (h : ∀ cs, m ('a' :: cs) = none) :
    ∀ n, scanSub m (List.replicate n 'a') = List.replicate n 'a' := by
  intro n
  induction n with
  | zero => rfl
  | succ n ih =>
    rw [List.replicate_succ, scanSub_cons, h]
    simp only
    rw [ih]

theorem countWhile_ws_a (cs : List Char) :
    countWhile isPyWS ('a' :: cs) = 0 := by
  unfold countWhile
  rw [List.takeWhile_cons]
  simp [isPyWS]

theorem mMetadata_a (cs : List Char) : mMetadata ('a' :: cs) = none := by
  unfold mMetadata
  rw [if_neg]
  simp [List.isPrefixOf]

theorem mComment_a (cs : List Char) : mComment ('a' :: cs) = none := by
  unfold mComment
  rw [if_neg]
  simp [List.isPrefixOf]

theorem mXmlnsEditor_a (cs : List Char) : mXmlnsEditor ('a' :: cs) = none := by
  unfold mXmlnsEditor
  simp only [countWhile_ws_a]
  rfl

theorem mEditorAttr_a (cs : List Char) : mEditorAttr ('a' :: cs) = none := by
  unfold mEditorAttr
  simp only [countWhile_ws_a]
  rfl

theorem mWsCollapse_a (cs : List Char) : mWsCollapse ('a' :: cs) = none := by
  unfold mWsCollapse
  simp only [countWhile_ws_a]
  rfl

theorem mGtWsLt_a (cs : List Char) : mGtWsLt ('a' :: cs) = none := rfl

theorem mQuoteWs_a (cs : List Char) : mQuoteWs ('a' :: cs) = none := rfl

theorem mWsEq_a (cs : List Char) : mWsEq ('a' :: cs) = none := by
  unfold mWsEq
  simp only [countWhile_ws_a]
  rfl

theorem mVersion_a (cs : List Char) : mVersion ('a' :: cs) = none := by
  unfold mVersion
  simp only [countWhile_ws_a]
  rfl

theorem mStrokeWidth_a (cs : List Char) : mStrokeWidth ('a' :: cs) = none := by
  unfold mStrokeWidth
  rw [if_neg]
  simp [List.isPrefixOf]

theorem mWsLit_a (lit : List Char) (cs : List Char) :
    mWsLit lit ('a' :: cs) = none := by
  unfold mWsLit
  simp only [countWhile_ws_a]
  rfl

theorem mDAttr_a (inner : List Char → Option (Nat × List Char))
    (cs : List Char) : mDAttr inner ('a' :: cs) = none := by
  unfold mDAttr
  rw [if_neg]
  simp [List.isPrefixOf]

theorem mProlog_a (cs : List Char) : mProlog ('a' :: cs) = none := by
  unfold mProlog
  rw [if_neg]
  simp [List.isPrefixOf]

theorem mRgb_a (cs : List Char) : mRgb ('a' :: cs) = none := by
  unfold mRgb
  rw [if_neg]
  simp [List.isPrefixOf]

theorem pyStripL_replicate_a (n : Nat) :
    pyStripL (List.replicate n 'a') = List.replicate n 'a' := by
  unfold pyStripL
  have hdw : ∀ m, (List.replicate m 'a').dropWhile isPyWS =
      List.replicate m 'a' := by
    intro m
    cases m with
    | zero => rfl
    | succ m =>
      rw [List.replicate_succ, List.dropWhile_cons]
      simp [isPyWS]
  rw [hdw, List.reverse_replicate, hdw, List.reverse_replicate]

/-- The all-`'a'` string of a given length. -/
def aString (n : Nat) : String := String.mk (List.replicate n 'a')

theorem remove_metadata_aString (n : Nat) :
    remove_metadata (aString n) = aString n := by
  unfold remove_metadata aString
  simp only [scanSub_replicate_a mMetadata mMetadata_a,
    scanSub_replicate_a mComment mComment_a,
    scanSub_replicate_a mXmlnsEditor mXmlnsEditor_a,
    scanSub_replicate_a mEditorAttr mEditorAttr_a]

theorem minify_svg_aString (n : Nat) : minify_svg (aString n) = aString n := by
  unfold minify_svg aString
  simp only [scanSub_replicate_a mWsCollapse mWsCollapse_a,
    scanSub_replicate_a mGtWsLt mGtWsLt_a,
    scanSub_replicate_a mQuoteWs mQuoteWs_a,
    scanSub_replicate_a mWsEq mWsEq_a,
    scanSub_replicate_a mVersion mVersion_a,
    scanSub_replicate_a mStrokeWidth mStrokeWidth_a,
    pyStripL_replicate_a]

theorem simplify_paths_aString (p n : Nat) :
    simplify_paths p (aString n) = aString n := by
  unfold simplify_paths aString
  simp only [scanSub_replicate_a (mDAttr (mSimplifyNum p))
    (mDAttr_a (mSimplifyNum p))]

theorem applyFallback_aString (n : Nat) :
    applyFallbackOptimization (aString n) = aString n := by
  unfold applyFallbackOptimization
  rw [remove_metadata_aString, minify_svg_aString, simplify_paths_aString]
  unfold aString
  simp only [scanSub_replicate_a _ (mWsLit_a "opacity=\"1\"".data),
    scanSub_replicate_a _ (mWsLit_a "fill-opacity=\"1\"".data),
    scanSub_replicate_a _ (mWsLit_a "stroke-opacity=\"1\"".data),
    scanSub_replicate_a _ (mWsLit_a "stroke-linecap=\"butt\"".data),
    scanSub_replicate_a _ (mWsLit_a "stroke-linejoin=\"miter\"".data)]

theorem applyAggressive_aString (n : Nat) :
    applyAggressiveOptimization (aString n) = aString n := by
  unfold applyAggressiveOptimization
  rw [remove_metadata_aString, minify_svg_aString, simplify_paths_aString]
  unfold aString
  simp only [scanSub_replicate_a mWsCollapse mWsCollapse_a,
    scanSub_replicate_a mGtWsLt mGtWsLt_a,
    scanSub_replicate_a mProlog mProlog_a,
    scanSub_replicate_a mRgb mRgb_a]

theorem utf8Len_aString (n : Nat) : utf8Len (aString n) = n := by
  unfold utf8Len aString utf8LenL
  rw [List.map_replicate]
  rw [show utf8Bytes 'a' = 1 from rfl]
  simp

theorem aString_ne_empty (n : Nat) (hn : 0 < n) : aString n ≠ "" := by
  intro h
  have := congrArg String.data h
  rw [show (aString n).data = List.replicate n 'a' from rfl] at this
  rw [show ("" : String).data = [] from rfl] at this
  rw [List.replicate_eq_nil_iff] at this
  omega

/-- Witness for C5 at the 10241-byte string of `'a'`s, on which every
fallback pass is the identity, so both tiers exceed the 10240-byte budget
and the aggressive artifact is returned with the diagnostic. -/
theorem C5_budget_overrun_terminal_witness :
    optimize_svg_string (aString 10241) =
      (applyAggressiveOptimization (applyFallbackOptimization (aString 10241)),
        [OptLog.aggressiveAttempt
          (utf8Len (applyFallbackOptimization (aString 10241))),
         OptLog.budgetNotMet
           (utf8Len (applyAggressiveOptimization
             (applyFallbackOptimization (aString 10241))))]) :=
  C5_budget_overrun_terminal (aString 10241)
    (aString_ne_empty 10241 (by omega))
    (by rw [applyFallback_aString, utf8Len_aString]; decide)
    (by rw [applyFallback_aString, applyAggressive_aString, utf8Len_aString]
        decide)

/-! ## Claim C6: size monotonicity machinery -/

theorem utf8LenL_append (a b : List Char) :
    utf8LenL (a ++ b) = utf8LenL a + utf8LenL b := by
  unfold utf8LenL
  rw [List.map_append, List.sum_append]

theorem utf8LenL_cons (c : Char) (l : List Char) :
    utf8LenL (c :: l) = utf8Bytes c + utf8LenL l := rfl

theorem one_le_utf8Bytes (c : Char) : 1 ≤ utf8Bytes c := by
  unfold utf8Bytes
  split_ifs <;> omega

theorem length_le_utf8LenL (l : List Char) : l.length ≤ utf8LenL l := by
  induction l with
  | nil => exact Nat.le_refl 0
  | cons c cs ih =>
    rw [utf8LenL_cons, List.length_cons]
    have := one_le_utf8Bytes c
    omega

theorem utf8LenL_take_ge (l : List Char) (k : Nat) (hk : k ≤ l.length) :
    k ≤ utf8LenL (l.take k) := by
  have h := length_le_utf8LenL (l.take k)
  rw [List.length_take, Nat.min_eq_left hk] at h
  exact h

theorem utf8LenL_reverse (l : List Char) :
    utf8LenL l.reverse = utf8LenL l := by
  unfold utf8LenL
  rw [List.map_reverse, List.sum_reverse]

theorem utf8LenL_dropWhile_le (p : Char → Bool) (l : List Char) :
    utf8LenL (l.dropWhile p) ≤ utf8LenL l := by
  induction l with
  | nil => exact Nat.le_refl 0
  | cons c cs ih =>
    rw [List.dropWhile_cons]
    split
    · rw [utf8LenL_cons]
      have := one_le_utf8Bytes c
      omega
    · exact Nat.le_refl _

theorem utf8LenL_pyStrip_le (l : List Char) :
    utf8LenL (pyStripL l) ≤ utf8LenL l := by
  unfold pyStripL
  rw [utf8LenL_reverse]
  calc utf8LenL ((l.dropWhile isPyWS).reverse.dropWhile isPyWS)
      ≤ utf8LenL (l.dropWhile isPyWS).reverse := utf8LenL_dropWhile_le _ _
    _ = utf8LenL (l.dropWhile isPyWS) := utf8LenL_reverse _
    _ ≤ utf8LenL l := utf8LenL_dropWhile_le _ _

/-- A matcher never grows the text: it consumes at least one character, stays
within the input, and its replacement is no larger (in UTF-8 bytes) than the
consumed segment. -/
def Shrinking (m : List Char → Option (Nat × List Char)) : Prop :=
  ∀ l k rep, m l = some (k, rep) →
    1 ≤ k ∧ k ≤ l.length ∧ utf8LenL rep ≤ utf8LenL (l.take k)

theorem scanSubF_shrink (m : List Char → Option (Nat × List Char))
    (hm : Shrinking m) :
    ∀ fuel l, utf8LenL (scanSubF m fuel l) ≤ utf8LenL l := by
  intro fuel
  induction fuel with
  | zero => intro l; exact Nat.le_refl _
  | succ fuel ih =>
    intro l
    cases l with
    | nil => exact Nat.le_refl 0
    | cons c cs =>
      rw [scanSubF]
      cases hmc : m (c :: cs) with
      | none =>
        simp only
        rw [utf8LenL_cons, utf8LenL_cons]
        have := ih cs
        omega
      | some kr =>
        obtain ⟨k, rep⟩ := kr
        simp only
        rw [utf8LenL_append]
        obtain ⟨hk1, hk2, hrep⟩ := hm _ _ _ hmc
        have h2 := ih (cs.drop (k - 1))
        have hsplit : utf8LenL (c :: cs) =
            utf8LenL ((c :: cs).take k) + utf8LenL ((c :: cs).drop k) := by
          rw [← utf8LenL_append, List.take_append_drop]
        have hdk : (c :: cs).drop k = cs.drop (k - 1) := by
          cases k with
          | zero => omega
          | succ k => rw [List.drop_succ_cons]; congr 1
        rw [hdk] at hsplit
        omega

theorem scanSub_shrink (m : List Char → Option (Nat × List Char))
    (hm : Shrinking m) (l : List Char) :
    utf8LenL (scanSub m l) ≤ utf8LenL l :=
  scanSubF_shrink m hm l.length l

theorem countWhile_le (p : Char → Bool) (l : List Char) :
    countWhile p l ≤ l.length := by
  unfold countWhile
  exact (List.takeWhile_prefix p).length_le

theorem prefix_length_le (pat l : List Char) (h : pat.isPrefixOf l = true) :
    pat.length ≤ l.length :=
  (List.isPrefixOf_iff_prefix.mp h).length_le

theorem prefix_eq_take (pat l : List Char) (h : pat.isPrefixOf l = true) :
    l.take pat.length = pat :=
  (List.prefix_iff_eq_take.mp (List.isPrefixOf_iff_prefix.mp h)).symm

theorem firstIdxOf_spec (pat : List Char) :
    ∀ l i, firstIdxOf pat l = some i → pat.isPrefixOf (l.drop i) = true := by
  intro l
  induction l with
  | nil =>
    intro i h
    rw [firstIdxOf] at h
    split at h
    · rename_i hp
      rcases (Option.some.injEq _ _).mp h with rfl
      exact hp
    · exact absurd h (by simp)
  | cons c cs ih =>
    intro i h
    rw [firstIdxOf] at h
    split at h
    · rename_i hp
      rcases (Option.some.injEq _ _).mp h with rfl
      exact hp
    · revert h
      cases hr : firstIdxOf pat cs with
      | none => intro h; exact absurd h (by simp)
      | some j =>
        intro h
        rcases (Option.some.injEq _ _).mp h with rfl
        rw [List.drop_succ_cons]
        exact ih j hr

theorem editorAlt_spec (l : List Char) (a : Nat) (h : editorAlt l = some a) :
    a ≤ l.length := by
  unfold editorAlt at h
  split at h
  · rename_i hp
    rcases (Option.some.injEq _ _).mp h with rfl
    simpa using prefix_length_le _ _ hp
  · split at h
    · rename_i hp
      rcases (Option.some.injEq _ _).mp h with rfl
      simpa using prefix_length_le _ _ hp
    · split at h
      · rename_i hp
        rcases (Option.some.injEq _ _).mp h with rfl
        simpa using prefix_length_le _ _ hp
      · split at h
        · rename_i hp
          rcases (Option.some.injEq _ _).mp h with rfl
          simpa using prefix_length_le _ _ hp
        · split at h
          · rename_i hp
            rcases (Option.some.injEq _ _).mp h with rfl
            simpa using prefix_length_le _ _ hp
          · exact absurd h (by simp)

theorem mMetadata_shrinking : Shrinking mMetadata := by
  intro l k rep hm
  unfold mMetadata at hm
  split at hm
  · rename_i hp
    revert hm
    cases hfi : firstIdxOf "</metadata>".data (l.drop 10) with
    | none => intro hm; exact absurd hm (by simp)
    | some i =>
      intro hm
      simp only [Option.some.injEq, Prod.mk.injEq] at hm
      obtain ⟨rfl, rfl⟩ := hm
      have h10 : 10 ≤ l.length := by simpa using prefix_length_le _ _ hp
      have hfit := prefix_length_le _ _ (firstIdxOf_spec _ _ _ hfi)
      rw [List.length_drop, List.length_drop] at hfit
      refine ⟨by omega, by simp at hfit ⊢; omega, ?_⟩
      rw [show utf8LenL [] = 0 from rfl]
      omega
  · exact absurd hm (by simp)

theorem mComment_shrinking : Shrinking mComment := by
  intro l k rep hm
  unfold mComment at hm
  split at hm
  · rename_i hp
    revert hm
    cases hfi : firstIdxOf "-->".data (l.drop 4) with
    | none => intro hm; exact absurd hm (by simp)
    | some i =>
      intro hm
      simp only [Option.some.injEq, Prod.mk.injEq] at hm
      obtain ⟨rfl, rfl⟩ := hm
      have h4 : 4 ≤ l.length := by simpa using prefix_length_le _ _ hp
      have hfit := prefix_length_le _ _ (firstIdxOf_spec _ _ _ hfi)
      rw [List.length_drop, List.length_drop] at hfit
      refine ⟨by omega, by simp at hfit ⊢; omega, ?_⟩
      rw [show utf8LenL [] = 0 from rfl]
      omega
  · exact absurd hm (by simp)

theorem mXmlnsEditor_shrinking : Shrinking mXmlnsEditor := by
  intro l k rep hm
  unfold mXmlnsEditor at hm
  simp only [] at hm
  split at hm
  · exact absurd hm (by simp)
  · rename_i hw
    split at hm
    · rename_i hp6
      revert hm
      cases ha : editorAlt ((l.drop (countWhile isPyWS l)).drop 6) with
      | none => intro hm; exact absurd hm (by simp)
      | some a =>
        intro hm
        simp only [] at hm
        split at hm
        · rename_i hp2
          split at hm
          · rename_i hv
            injection hm with hm1
            obtain ⟨h1, h2⟩ := Prod.ext_iff.mp hm1
            subst h1
            subst h2
            rcases (Bool.and_eq_true _ _).mp hv with ⟨_, hlt⟩
            have hlt2 := of_decide_eq_true hlt
            have hw2 := countWhile_le isPyWS l
            have h6 : 6 ≤ (l.drop (countWhile isPyWS l)).length := by
              simpa using prefix_length_le _ _ hp6
            have ha2 := editorAlt_spec _ _ ha
            simp only [List.length_drop] at ha2 hlt2 h6
            refine ⟨by omega, by omega, ?_⟩
            rw [show utf8LenL [] = 0 from rfl]
            omega
          · exact absurd hm (by simp)
        · exact absurd hm (by simp)
    · exact absurd hm (by simp)

theorem mEditorAttr_shrinking : Shrinking mEditorAttr := by
  intro l k rep hm
  unfold mEditorAttr at hm
  simp only [] at hm
  split at hm
  · exact absurd hm (by simp)
  · rename_i hw
    revert hm
    cases ha : editorAlt (l.drop (countWhile isPyWS l)) with
    | none => intro hm; exact absurd hm (by simp)
    | some a =>
      intro hm
      simp only [] at hm
      split at hm
      · rename_i hcol
        split at hm
        · exact absurd hm (by simp)
        · rename_i hnm
          split at hm
          · rename_i hpq
            split at hm
            · rename_i hv
              injection hm with hm1
              obtain ⟨h1, h2⟩ := Prod.ext_iff.mp hm1
              subst h1
              subst h2
              rcases (Bool.and_eq_true _ _).mp hv with ⟨_, hlt⟩
              have hlt2 := of_decide_eq_true hlt
              have hw2 := countWhile_le isPyWS l
              have ha2 := editorAlt_spec _ _ ha
              have hcl : (l.drop (countWhile isPyWS l)).drop a ≠ [] := by
                intro hnil
                rw [hnil] at hcol
                exact absurd hcol (by simp)
              have hcl2 := List.length_pos.mpr hcl
              simp only [List.length_drop] at ha2 hcl2 hlt2
              refine ⟨by omega, by omega, ?_⟩
              rw [show utf8LenL [] = 0 from rfl]
              omega
            · exact absurd hm (by simp)
          · exact absurd hm (by simp)
      · exact absurd hm (by simp)

theorem mWsCollapse_shrinking : Shrinking mWsCollapse := by
  intro l k rep hm
  unfold mWsCollapse at hm
  simp only [] at hm
  split at hm
  · exact absurd hm (by simp)
  · rename_i hw
    injection hm with hm1
    rw [Prod.mk.injEq] at hm1
    obtain ⟨h1, h2⟩ := hm1
    subst h1
    subst h2
    have hw2 := countWhile_le isPyWS l
    refine ⟨by omega, hw2, ?_⟩
    have := utf8LenL_take_ge l (countWhile isPyWS l) hw2
    rw [show utf8LenL [' '] = 1 from rfl]
    omega

theorem mGtWsLt_shrinking : Shrinking mGtWsLt := by
  intro l k rep hm
  unfold mGtWsLt at hm
  split at hm
  · rename_i rest
    simp only [] at hm
    split at hm
    · exact absurd hm (by simp)
    · rename_i hw
      split at hm
      · rename_i hlt
        injection hm with hm1
        rw [Prod.mk.injEq] at hm1
        obtain ⟨h1, h2⟩ := hm1
        subst h1
        subst h2
        have hw2 := countWhile_le isPyWS rest
        have hne : rest.drop (countWhile isPyWS rest) ≠ [] := by
          intro hnil
          rw [hnil] at hlt
          exact absurd hlt (by simp)
        have hpos := List.length_pos.mpr hne
        simp only [List.length_drop] at hpos
        refine ⟨by omega, by simp only [List.length_cons]; omega, ?_⟩
        have hk : 1 + countWhile isPyWS rest + 1 ≤ ('>' :: rest).length := by
          simp only [List.length_cons]
          omega
        have := utf8LenL_take_ge ('>' :: rest) _ hk
        rw [show utf8LenL ['>', '<'] = 2 from rfl]
        omega
      · exact absurd hm (by simp)
  · exact absurd hm (by simp)

theorem mQuoteWs_shrinking : Shrinking mQuoteWs := by
  intro l k rep hm
  unfold mQuoteWs at hm
  split at hm
  · rename_i rest
    simp only [] at hm
    split at hm
    · exact absurd hm (by simp)
    · rename_i hw
      injection hm with hm1
      rw [Prod.mk.injEq] at hm1
      obtain ⟨h1, h2⟩ := hm1
      subst h1
      subst h2
      have hw2 := countWhile_le isPyWS rest
      refine ⟨by omega, by simp only [List.length_cons]; omega, ?_⟩
      have hk : 1 + countWhile isPyWS rest ≤ ('"' :: rest).length := by
        simp only [List.length_cons]
        omega
      have := utf8LenL_take_ge ('"' :: rest) _ hk
      rw [show utf8LenL ['"'] = 1 from rfl]
      omega
  · exact absurd hm (by simp)

theorem mWsEq_shrinking : Shrinking mWsEq := by
  intro l k rep hm
  unfold mWsEq at hm
  simp only [] at hm
  split at hm
  · exact absurd hm (by simp)
  · rename_i hw
    split at hm
    · rename_i hp
      injection hm with hm1
      rw [Prod.mk.injEq] at hm1
      obtain ⟨h1, h2⟩ := hm1
      subst h1
      subst h2
      have hw2 := countWhile_le isPyWS l
      have hp2 := prefix_length_le _ _ hp
      simp only [List.length_drop] at hp2
      rw [show ("=\"".data : List Char).length = 2 from rfl] at hp2
      refine ⟨by omega, by omega, ?_⟩
      have := utf8LenL_take_ge l (countWhile isPyWS l + 2) (by omega)
      rw [show utf8LenL ['=', '"'] = 2 from rfl]
      omega
    · exact absurd hm (by simp)

theorem mVersion_shrinking : Shrinking mVersion := by
  intro l k rep hm
  unfold mVersion at hm
  simp only [] at hm
  split at hm
  · exact absurd hm (by simp)
  · rename_i hw
    split at hm
    · rename_i hp
      split at hm
      · rename_i hv
        injection hm with hm1
        rw [Prod.mk.injEq] at hm1
        obtain ⟨h1, h2⟩ := hm1
        subst h1
        subst h2
        rcases (Bool.and_eq_true _ _).mp hv with ⟨_, hlt⟩
        have hlt2 := of_decide_eq_true hlt
        have hw2 := countWhile_le isPyWS l
        simp only [List.length_drop] at hlt2
        refine ⟨by omega, by omega, ?_⟩
        rw [show utf8LenL [] = 0 from rfl]
        omega
      · exact absurd hm (by simp)
    · exact absurd hm (by simp)

theorem mStrokeWidth_shrinking : Shrinking mStrokeWidth := by
  intro l k rep hm
  unfold mStrokeWidth at hm
  split at hm
  · rename_i hp
    injection hm with hm1
    rw [Prod.mk.injEq] at hm1
    obtain ⟨h1, h2⟩ := hm1
    subst h1
    subst h2
    have hp2 := prefix_length_le _ _ hp
    rw [show ("stroke-width=\"1\"".data : List Char).length = 16 from
      rfl] at hp2
    refine ⟨by omega, hp2, ?_⟩
    rw [show (16 : Nat) = ("stroke-width=\"1\"".data : List Char).length from
      rfl, prefix_eq_take _ _ hp]
  · exact absurd hm (by simp)

theorem mWsLit_shrinking (lit : List Char) : Shrinking (mWsLit lit) := by
  intro l k rep hm
  unfold mWsLit at hm
  simp only [] at hm
  split at hm
  · exact absurd hm (by simp)
  · rename_i hw
    split at hm
    · rename_i hp
      injection hm with hm1
      rw [Prod.mk.injEq] at hm1
      obtain ⟨h1, h2⟩ := hm1
      subst h1
      subst h2
      have hw2 := countWhile_le isPyWS l
      have hp2 := prefix_length_le _ _ hp
      simp only [List.length_drop] at hp2
      refine ⟨by omega, by omega, ?_⟩
      rw [show utf8LenL [] = 0 from rfl]
      omega
    · exact absurd hm (by simp)

theorem mProlog_shrinking : Shrinking mProlog := by
  intro l k rep hm
  unfold mProlog at hm
  simp only [] at hm
  split at hm
  · rename_i hp
    split at hm
    · rename_i hcond
      injection hm with hm1
      rw [Prod.mk.injEq] at hm1
      obtain ⟨h1, h2⟩ := hm1
      subst h1
      subst h2
      rcases (Bool.and_eq_true _ _).mp hcond with ⟨hcond1, _⟩
      rcases (Bool.and_eq_true _ _).mp hcond1 with ⟨hj, _⟩
      have hj2 := of_decide_eq_true hj
      simp only [List.length_drop] at hj2
      refine ⟨by omega, by omega, ?_⟩
      rw [show utf8LenL [] = 0 from rfl]
      omega
    · exact absurd hm (by simp)
  · exact absurd hm (by simp)

theorem mem_takeWhile_sat (p : Char → Bool) :
    ∀ (l : List Char) (a : Char), a ∈ l.takeWhile p → p a = true := by
  intro l
  induction l with
  | nil =>
    intro a h
    exact absurd h (List.not_mem_nil a)
  | cons c cs ih =>
    intro a h
    rw [List.takeWhile_cons] at h
    split at h
    · rename_i hp
      rcases List.mem_cons.mp h with rfl | h2
      · exact hp
      · exact ih a h2
    · exact absurd h (List.not_mem_nil a)

theorem take_countWhile_eq_takeWhile (p : Char → Bool) (l : List Char) :
    l.take (countWhile p l) = l.takeWhile p := by
  unfold countWhile
  exact (List.prefix_iff_eq_take.mp (List.takeWhile_prefix p)).symm

theorem digit_val_lt (c : Char) (h : isDigit c = true) :
    c.toNat - '0'.toNat < 10 ∧ '0'.toNat ≤ c.toNat := by
  unfold isDigit at h
  rcases (Bool.and_eq_true _ _).mp h with ⟨h1, h2⟩
  have h1' := of_decide_eq_true h1
  have h2' := of_decide_eq_true h2
  rw [Char.le_def] at h1' h2'
  have h1n : 48 ≤ c.toNat := h1'
  have h2n : c.toNat ≤ 57 := h2'
  have e0 : '0'.toNat = 48 := rfl
  constructor
  · omega
  · rw [e0]
    exact h1n

theorem natOfDigits_foldl_lt (acc : Nat) :
    ∀ ds : List Char, (∀ c ∈ ds, isDigit c = true) →
      ds.foldl (fun acc c => 10 * acc + (c.toNat - '0'.toNat)) acc <
        (acc + 1) * 10 ^ ds.length := by
  intro ds
  induction ds generalizing acc with
  | nil =>
    intro _
    simp only [List.foldl_nil, List.length_nil, pow_zero, mul_one]
    exact Nat.lt_succ_self acc
  | cons c cs ih =>
    intro hall
    rw [List.foldl_cons]
    have hd := (digit_val_lt c (hall c (List.mem_cons_self c cs))).1
    have := ih (10 * acc + (c.toNat - '0'.toNat))
      (fun x hx => hall x (List.mem_cons_of_mem c hx))
    calc (cs.foldl (fun acc c => 10 * acc + (c.toNat - '0'.toNat))
          (10 * acc + (c.toNat - '0'.toNat)))
        < (10 * acc + (c.toNat - '0'.toNat) + 1) * 10 ^ cs.length := this
      _ ≤ ((acc + 1) * 10) * 10 ^ cs.length := by
          apply Nat.mul_le_mul_right
          omega
      _ = (acc + 1) * 10 ^ (c :: cs).length := by
          rw [List.length_cons]
          ring

theorem natOfDigits_lt (ds : List Char) (h : ∀ c ∈ ds, isDigit c = true) :
    natOfDigits ds < 10 ^ ds.length := by
  have := natOfDigits_foldl_lt 0 ds h
  unfold natOfDigits
  omega

theorem digits16_len_le (m n : Nat) (h : m < 16 ^ n) :
    (digitsBase 16 m m).length ≤ n := by
  rw [digitsBase_eq_digits 16 (by omega) m m (Nat.le_refl m)]
  by_cases hm : m = 0
  · subst hm
    simp
  · have h3 := Nat.base_pow_length_digits_le 16 m (by omega) hm
    have h4 : (16 : Nat) ^ (Nat.digits 16 m).length < 16 ^ (n + 1) := by
      calc (16 : Nat) ^ (Nat.digits 16 m).length ≤ 16 * m := h3
        _ < 16 * 16 ^ n := by omega
        _ = 16 ^ (n + 1) := by ring
    have h5 := (Nat.pow_lt_pow_iff_right (by omega : 1 < 16)).mp h4
    omega

theorem utf8LenL_of_ascii (l : List Char) (h : ∀ c ∈ l, utf8Bytes c = 1) :
    utf8LenL l = l.length := by
  induction l with
  | nil => rfl
  | cons c cs ih =>
    rw [utf8LenL_cons, h c (List.mem_cons_self c cs), List.length_cons,
      ih (fun x hx => h x (List.mem_cons_of_mem c hx))]
    omega

theorem utf8Bytes_digitChar (d : Nat) (hd : d < 16) :
    utf8Bytes (Nat.digitChar d) = 1 := by
  interval_cases d <;> decide

theorem hexPad2_length_le (x n : Nat) (hx : x < 16 ^ n) :
    (hexPad2 x).length ≤ 2 + n := by
  unfold hexPad2
  rw [List.length_append, List.length_replicate, List.length_reverse,
    List.length_map]
  have := digits16_len_le x n hx
  omega

theorem utf8LenL_hexPad2 (x : Nat) :
    utf8LenL (hexPad2 x) = (hexPad2 x).length := by
  apply utf8LenL_of_ascii
  intro c hc
  unfold hexPad2 at hc
  rcases List.mem_append.mp hc with h1 | h1
  · rw [List.eq_of_mem_replicate h1]
    rfl
  · rw [List.mem_reverse, List.mem_map] at h1
    obtain ⟨d, hd, rfl⟩ := h1
    exact utf8Bytes_digitChar d (mem_digitsBase_lt 16 (by omega) x x d hd)

theorem digitRun_facts (r : List Char) :
    natOfDigits (r.take (countWhile isDigit r)) <
      10 ^ countWhile isDigit r := by
  rw [take_countWhile_eq_takeWhile]
  have h := natOfDigits_lt (r.takeWhile isDigit)
    (fun c hc => mem_takeWhile_sat isDigit r c hc)
  unfold countWhile
  exact h

theorem head_some_length_pos (r : List Char) (c : Char)
    (h : r.head? = some c) : 0 < r.length := by
  cases r with
  | nil => exact absurd h (by simp)
  | cons x xs => simp

theorem mRgb_shrinking : Shrinking mRgb := by
  intro l k rep hm
  unfold mRgb at hm
  simp only [] at hm
  split at hm
  · rename_i hp4
    split at hm
    · exact absurd hm (by simp)
    · rename_i ha0
      split at hm
      · rename_i hc1
        split at hm
        · exact absurd hm (by simp)
        · rename_i hb0
          split at hm
          · rename_i hc2
            split at hm
            · exact absurd hm (by simp)
            · rename_i hc0
              split at hm
              · rename_i hc3
                injection hm with hm1
                rw [Prod.mk.injEq] at hm1
                obtain ⟨h1, h2⟩ := hm1
                subst h1
                subst h2
                have hp3 := head_some_length_pos _ _ hc3
                simp only [List.length_drop] at hp3
                refine ⟨by omega, by omega, ?_⟩
                refine le_trans ?_ (utf8LenL_take_ge l _ (by omega))
                rw [utf8LenL_cons, utf8LenL_append, utf8LenL_append,
                  utf8LenL_hexPad2, utf8LenL_hexPad2, utf8LenL_hexPad2]
                have hX := hexPad2_length_le _ (countWhile isDigit (l.drop 4))
                  (lt_of_lt_of_le (digitRun_facts (l.drop 4))
                    (Nat.pow_le_pow_left (by omega) _))
                have hY := hexPad2_length_le _
                  (countWhile isDigit
                    (((l.drop 4).drop (countWhile isDigit (l.drop 4) + 1)).drop
                      (countWhile isPyWS
                        ((l.drop 4).drop (countWhile isDigit (l.drop 4) + 1)))))
                  (lt_of_lt_of_le
                    (digitRun_facts
                      (((l.drop 4).drop (countWhile isDigit (l.drop 4) +
                        1)).drop
                        (countWhile isPyWS
                          ((l.drop 4).drop
                            (countWhile isDigit (l.drop 4) + 1)))))
                    (Nat.pow_le_pow_left (by omega) _))
                have hZ := hexPad2_length_le _
                  (countWhile isDigit
                    ((((l.drop 4).drop (countWhile isDigit (l.drop 4) +
                      1)).drop
                      (countWhile isPyWS
                        ((l.drop 4).drop (countWhile isDigit (l.drop 4) + 1)) +
                       countWhile isDigit
                        (((l.drop 4).drop (countWhile isDigit (l.drop 4) +
                          1)).drop
                          (countWhile isPyWS
                            ((l.drop 4).drop
                              (countWhile isDigit (l.drop 4) + 1)))) + 1)).drop
                      (countWhile isPyWS
                        (((l.drop 4).drop (countWhile isDigit (l.drop 4) +
                          1)).drop
                          (countWhile isPyWS
                            ((l.drop 4).drop
                              (countWhile isDigit (l.drop 4) + 1)) +
                           countWhile isDigit
                            (((l.drop 4).drop
                              (countWhile isDigit (l.drop 4) + 1)).drop
                              (countWhile isPyWS
                                ((l.drop 4).drop
                                  (countWhile isDigit (l.drop 4) + 1)))) +
                           1)))))
                  (lt_of_lt_of_le
                    (digitRun_facts _)
                    (Nat.pow_le_pow_left (by omega) _))
                rw [show utf8Bytes '#' = 1 from rfl]
                omega
              · exact absurd hm (by simp)
          · exact absurd hm (by simp)
      · exact absurd hm (by simp)
  · exact absurd hm (by simp)

theorem remove_metadata_shrink (s : String) :
    utf8Len (remove_metadata s) ≤ utf8Len s := by
  unfold remove_metadata utf8Len
  calc utf8LenL (scanSub mEditorAttr (scanSub mXmlnsEditor
        (scanSub mComment (scanSub mMetadata s.data))))
      ≤ utf8LenL (scanSub mXmlnsEditor
        (scanSub mComment (scanSub mMetadata s.data))) :=
      scanSub_shrink _ mEditorAttr_shrinking _
    _ ≤ utf8LenL (scanSub mComment (scanSub mMetadata s.data)) :=
      scanSub_shrink _ mXmlnsEditor_shrinking _
    _ ≤ utf8LenL (scanSub mMetadata s.data) :=
      scanSub_shrink _ mComment_shrinking _
    _ ≤ utf8LenL s.data := scanSub_shrink _ mMetadata_shrinking _

theorem minify_svg_shrink (s : String) :
    utf8Len (minify_svg s) ≤ utf8Len s := by
  unfold minify_svg utf8Len
  calc utf8LenL (pyStripL (scanSub mStrokeWidth (scanSub mVersion
        (scanSub mWsEq (scanSub mQuoteWs
          (scanSub mGtWsLt (scanSub mWsCollapse s.data)))))))
      ≤ utf8LenL (scanSub mStrokeWidth (scanSub mVersion
        (scanSub mWsEq (scanSub mQuoteWs
          (scanSub mGtWsLt (scanSub mWsCollapse s.data)))))) :=
      utf8LenL_pyStrip_le _
    _ ≤ utf8LenL (scanSub mVersion (scanSub mWsEq (scanSub mQuoteWs
        (scanSub mGtWsLt (scanSub mWsCollapse s.data))))) :=
      scanSub_shrink _ mStrokeWidth_shrinking _
    _ ≤ utf8LenL (scanSub mWsEq (scanSub mQuoteWs
        (scanSub mGtWsLt (scanSub mWsCollapse s.data)))) :=
      scanSub_shrink _ mVersion_shrinking _
    _ ≤ utf8LenL (scanSub mQuoteWs
        (scanSub mGtWsLt (scanSub mWsCollapse s.data))) :=
      scanSub_shrink _ mWsEq_shrinking _
    _ ≤ utf8LenL (scanSub mGtWsLt (scanSub mWsCollapse s.data)) :=
      scanSub_shrink _ mQuoteWs_shrinking _
    _ ≤ utf8LenL (scanSub mWsCollapse s.data) :=
      scanSub_shrink _ mGtWsLt_shrinking _
    _ ≤ utf8LenL s.data := scanSub_shrink _ mWsCollapse_shrinking _

theorem defaults_shrink (s : String) :
    utf8Len (String.mk
      (scanSub (mWsLit "stroke-linejoin=\"miter\"".data)
        (scanSub (mWsLit "stroke-linecap=\"butt\"".data)
          (scanSub (mWsLit "stroke-opacity=\"1\"".data)
            (scanSub (mWsLit "fill-opacity=\"1\"".data)
              (scanSub (mWsLit "opacity=\"1\"".data) s.data)))))) ≤
      utf8Len s := by
  unfold utf8Len
  calc utf8LenL (scanSub (mWsLit "stroke-linejoin=\"miter\"".data)
        (scanSub (mWsLit "stroke-linecap=\"butt\"".data)
          (scanSub (mWsLit "stroke-opacity=\"1\"".data)
            (scanSub (mWsLit "fill-opacity=\"1\"".data)
              (scanSub (mWsLit "opacity=\"1\"".data) s.data)))))
      ≤ utf8LenL (scanSub (mWsLit "stroke-linecap=\"butt\"".data)
          (scanSub (mWsLit "stroke-opacity=\"1\"".data)
            (scanSub (mWsLit "fill-opacity=\"1\"".data)
              (scanSub (mWsLit "opacity=\"1\"".data) s.data)))) :=
      scanSub_shrink _ (mWsLit_shrinking _) _
    _ ≤ utf8LenL (scanSub (mWsLit "stroke-opacity=\"1\"".data)
            (scanSub (mWsLit "fill-opacity=\"1\"".data)
              (scanSub (mWsLit "opacity=\"1\"".data) s.data))) :=
      scanSub_shrink _ (mWsLit_shrinking _) _
    _ ≤ utf8LenL (scanSub (mWsLit "fill-opacity=\"1\"".data)
              (scanSub (mWsLit "opacity=\"1\"".data) s.data)) :=
      scanSub_shrink _ (mWsLit_shrinking _) _
    _ ≤ utf8LenL (scanSub (mWsLit "opacity=\"1\"".data) s.data) :=
      scanSub_shrink _ (mWsLit_shrinking _) _
    _ ≤ utf8LenL s.data := scanSub_shrink _ (mWsLit_shrinking _) _

/-- C6 counterexample: on `<p d=".5"/>` the fallback (STANDARD) tier
*grows* the document from 11 to 12 bytes — the number regex matches `.5`,
`float` turns it into `0.5`, and `str(round(0.5, 1))` prints `0.5` —
refuting `size(STANDARD) ≤ size(raw)`. -/
theorem C6_counterexample :
    utf8Len "<p d=\".5\"/>" = 11 ∧
      utf8Len (applyFallbackOptimization "<p d=\".5\"/>") = 12 := by
  constructor
  · decide
  · decide

/-- C6 (amended): the fallback tiers reduce byte size monotonically
(`size(AGGRESSIVE) ≤ size(STANDARD) ≤ size(raw)`) whenever the two
`simplify_paths` steps leave their inputs unchanged (for instance when no
`d="..."` attribute is present); every other pass of either tier only
removes text or replaces a segment by something no longer than itself.  The
exception is exactly the counterexample's: path-data rounding may lengthen
a number (`.5` to `0.5`). -/
theorem utf8Len_mk (l : List Char) : utf8Len (String.mk l) = utf8LenL l :=
  rfl

theorem utf8LenL_data (s : String) : utf8LenL s.data = utf8Len s := rfl

set_option maxHeartbeats 1000000 in
theorem C6_fallback_monotonic (raw : String)
    (hstd : simplify_paths 1 (minify_svg (remove_metadata raw)) =
      minify_svg (remove_metadata raw))
    (hagg : simplify_paths 0 (minify_svg (remove_metadata
        (applyFallbackOptimization raw))) =
      minify_svg (remove_metadata (applyFallbackOptimization raw))) :
    utf8Len (applyAggressiveOptimization (applyFallbackOptimization raw)) ≤
        utf8Len (applyFallbackOptimization raw) ∧
      utf8Len (applyFallbackOptimization raw) ≤ utf8Len raw := by
  constructor
  · have h1 : applyAggressiveOptimization (applyFallbackOptimization raw) =
        String.mk (scanSub mRgb (scanSub mProlog (scanSub mGtWsLt
          (scanSub mWsCollapse (minify_svg (remove_metadata
            (applyFallbackOptimization raw))).data)))) := by
      unfold applyAggressiveOptimization
      rw [hagg]
    rw [h1, utf8Len_mk]
    refine le_trans (scanSub_shrink _ mRgb_shrinking _) ?_
    refine le_trans (scanSub_shrink _ mProlog_shrinking _) ?_
    refine le_trans (scanSub_shrink _ mGtWsLt_shrinking _) ?_
    refine le_trans (scanSub_shrink _ mWsCollapse_shrinking _) ?_
    rw [utf8LenL_data]
    exact le_trans (minify_svg_shrink _) (remove_metadata_shrink _)
  · have h1 : applyFallbackOptimization raw =
        String.mk (scanSub (mWsLit "stroke-linejoin=\"miter\"".data)
          (scanSub (mWsLit "stroke-linecap=\"butt\"".data)
            (scanSub (mWsLit "stroke-opacity=\"1\"".data)
              (scanSub (mWsLit "fill-opacity=\"1\"".data)
                (scanSub (mWsLit "opacity=\"1\"".data)
                  (minify_svg (remove_metadata raw)).data))))) := by
      unfold applyFallbackOptimization
      rw [hstd]
    rw [h1, utf8Len_mk]
    refine le_trans (scanSub_shrink _ (mWsLit_shrinking _) _) ?_
    refine le_trans (scanSub_shrink _ (mWsLit_shrinking _) _) ?_
    refine le_trans (scanSub_shrink _ (mWsLit_shrinking _) _) ?_
    refine le_trans (scanSub_shrink _ (mWsLit_shrinking _) _) ?_
    refine le_trans (scanSub_shrink _ (mWsLit_shrinking _) _) ?_
    rw [utf8LenL_data]
    exact le_trans (minify_svg_shrink _) (remove_metadata_shrink _)

set_option maxHeartbeats 2000000 in
/-- Witness for C6 (amended) on a whitespace-heavy document without path
data. -/
theorem C6_fallback_monotonic_witness :
    utf8Len (applyAggressiveOptimization (applyFallbackOptimization
        "<svg version=\"1.1\">  <g opacity=\"1\"> </g></svg>")) ≤
        utf8Len (applyFallbackOptimization
          "<svg version=\"1.1\">  <g opacity=\"1\"> </g></svg>") ∧
      utf8Len (applyFallbackOptimization
          "<svg version=\"1.1\">  <g opacity=\"1\"> </g></svg>") ≤
        utf8Len "<svg version=\"1.1\">  <g opacity=\"1\"> </g></svg>" :=
  C6_fallback_monotonic "<svg version=\"1.1\">  <g opacity=\"1\"> </g></svg>"
    (by decide) (by decide)
